import Mathlib

/-!
Verification of the Transaction Identity & Anonymization Engine
(`scripts/anonymize_data.py`).

The development shallowly embeds the engine: transaction records are
association lists of JSON-like values, the pseudonymization mapper is an
explicit state record threaded through each operation, and the hash-derived
selections are computed by executable MD5 / SHA-256 implementations over the
UTF-8 bytes of the input, mirroring `hashlib`.

Python floats are modelled by exact rationals; every numeric fact stated at a
concrete input below has a margin that dwarfs double-precision rounding error.
Python string operations (`upper`, regular expressions over `[A-Z]`, `\d`) are
modelled over ASCII, which covers the corpus and all inputs considered here.
-/

/-! ### Bytes, hex, UTF-8 -/

/-- UTF-8 encoding of a single character (code point → 1–4 bytes). -/
def utf8Char (c : Char) : List Nat :=
  let n := c.toNat
  if n < 0x80 then [n]
  else if n < 0x800 then [0xC0 + n / 64, 0x80 + n % 64]
  else if n < 0x10000 then [0xE0 + n / 4096, 0x80 + n / 64 % 64, 0x80 + n % 64]
  else [0xF0 + n / 262144, 0x80 + n / 4096 % 64, 0x80 + n / 64 % 64, 0x80 + n % 64]

/-- UTF-8 bytes of a string, as `str.encode()` produces them. -/
def strBytes (s : String) : List Nat :=
  s.data.foldr (fun c acc => utf8Char c ++ acc) []

/-- Lowercase hexadecimal digits. -/
def hexChars : List Char :=
  ['0', '1', '2', '3', '4', '5', '6', '7'] ++ ['8', '9', 'a', 'b', 'c', 'd', 'e', 'f']

/-- Two lowercase hex characters for one byte. -/
def byteHex (b : Nat) : List Char :=
  [hexChars.getD (b / 16) 'x', hexChars.getD (b % 16) 'x']

/-- Lowercase hex string of a byte list (`hexdigest`). -/
def bytesHex (bs : List Nat) : String :=
  String.mk (bs.foldr (fun b acc => byteHex b ++ acc) [])

/-! ### MD5 over byte lists -/

def m32 : Nat := 4294967296

/-- 32-bit left rotation. -/
def rotl32 (x n : Nat) : Nat :=
  ((x <<< n) ||| (x >>> (32 - n))) % m32

/-- MD5 round constants `K[0..63]`. -/
def md5K : List Nat :=
  [0xd76aa478, 0xe8c7b756, 0x242070db, 0xc1bdceee,
   0xf57c0faf, 0x4787c62a, 0xa8304613, 0xfd469501,
   0x698098d8, 0x8b44f7af, 0xffff5bb1, 0x895cd7be,
   0x6b901122, 0xfd987193, 0xa679438e, 0x49b40821,
   0xf61e2562, 0xc040b340, 0x265e5a51, 0xe9b6c7aa,
   0xd62f105d, 0x02441453, 0xd8a1e681, 0xe7d3fbc8,
   0x21e1cde6, 0xc33707d6, 0xf4d50d87, 0x455a14ed,
   0xa9e3e905, 0xfcefa3f8, 0x676f02d9, 0x8d2a4c8a,
   0xfffa3942, 0x8771f681, 0x6d9d6122, 0xfde5380c,
   0xa4beea44, 0x4bdecfa9, 0xf6bb4b60, 0xbebfbc70,
   0x289b7ec6, 0xeaa127fa, 0xd4ef3085, 0x04881d05,
   0xd9d4d039, 0xe6db99e5, 0x1fa27cf8, 0xc4ac5665,
   0xf4292244, 0x432aff97, 0xab9423a7, 0xfc93a039,
   0x655b59c3, 0x8f0ccc92, 0xffeff47d, 0x85845dd1,
   0x6fa87e4f, 0xfe2ce6e0, 0xa3014314, 0x4e0811a1,
   0xf7537e82, 0xbd3af235, 0x2ad7d2bb, 0xeb86d391]

/-- MD5 per-round left-rotation amounts. -/
def md5S : List Nat :=
  [7, 12, 17, 22, 7, 12, 17, 22, 7, 12, 17, 22, 7, 12, 17, 22,
   5, 9, 14, 20, 5, 9, 14, 20, 5, 9, 14, 20, 5, 9, 14, 20,
   4, 11, 16, 23, 4, 11, 16, 23, 4, 11, 16, 23, 4, 11, 16, 23,
   6, 10, 15, 21, 6, 10, 15, 21, 6, 10, 15, 21, 6, 10, 15, 21]

/-- Little-endian 32-bit word `g` of a 64-byte chunk. -/
def chunkWordLE (chunk : List Nat) (g : Nat) : Nat :=
  chunk.getD (4 * g) 0 + 256 * chunk.getD (4 * g + 1) 0 +
    65536 * chunk.getD (4 * g + 2) 0 + 16777216 * chunk.getD (4 * g + 3) 0

/-- One MD5 round on state `(A, B, C, D)`. -/
def md5Round (chunk : List Nat) (st : Nat × Nat × Nat × Nat) (i : Nat) : Nat × Nat × Nat × Nat :=
  let a := st.1; let b := st.2.1; let c := st.2.2.1; let d := st.2.2.2
  let fg : Nat × Nat :=
    if i < 16 then ((b &&& c) ||| ((b ^^^ 0xffffffff) &&& d), i)
    else if i < 32 then ((d &&& b) ||| ((d ^^^ 0xffffffff) &&& c), (5 * i + 1) % 16)
    else if i < 48 then (b ^^^ c ^^^ d, (3 * i + 5) % 16)
    else (c ^^^ (b ||| (d ^^^ 0xffffffff)), (7 * i) % 16)
  let f := (fg.1 + a + md5K.getD i 0 + chunkWordLE chunk fg.2) % m32
  (d, (b + rotl32 f (md5S.getD i 0)) % m32, b, c)

/-- MD5 compression of one 64-byte chunk into the running state. -/
def md5Compress (st : Nat × Nat × Nat × Nat) (chunk : List Nat) : Nat × Nat × Nat × Nat :=
  let r := (List.range 64).foldl (md5Round chunk) st
  ((st.1 + r.1) % m32, (st.2.1 + r.2.1) % m32,
   (st.2.2.1 + r.2.2.1) % m32, (st.2.2.2 + r.2.2.2) % m32)

/-- Chunk loop, fuelled so that it reduces definitionally. -/
def md5Loop : Nat → Nat × Nat × Nat × Nat → List Nat → Nat × Nat × Nat × Nat
  | 0, st, _ => st
  | _ + 1, st, [] => st
  | fuel + 1, st, bytes => md5Loop fuel (md5Compress st (bytes.take 64)) (bytes.drop 64)

/-- Little-endian byte expansion of one 32-bit word. -/
def wordBytesLE (w : Nat) : List Nat :=
  [w % 256, w / 256 % 256, w / 65536 % 256, w / 16777216 % 256]

/-- MD5 padding: `0x80`, zeros to 56 mod 64, 8-byte little-endian bit length. -/
def md5Pad (msg : List Nat) : List Nat :=
  let len := msg.length
  let zc := (120 - (len + 1) % 64) % 64
  let bitLen := 8 * len % 18446744073709551616
  msg ++ [0x80] ++ List.replicate zc 0 ++
    [bitLen % 256, bitLen / 256 % 256, bitLen / 65536 % 256, bitLen / 16777216 % 256,
     bitLen / 4294967296 % 256, bitLen / 1099511627776 % 256,
     bitLen / 281474976710656 % 256, bitLen / 72057594037927936 % 256]

/-- MD5 digest (16 bytes) of a byte list. -/
def md5Bytes (msg : List Nat) : List Nat :=
  let padded := md5Pad msg
  let st := md5Loop padded.length (0x67452301, 0xefcdab89, 0x98badcfe, 0x10325476) padded
  wordBytesLE st.1 ++ wordBytesLE st.2.1 ++ wordBytesLE st.2.2.1 ++ wordBytesLE st.2.2.2

/-- `hashlib.md5(s.encode()).hexdigest()`. -/
def md5Hex (s : String) : String :=
  bytesHex (md5Bytes (strBytes s))

/-- `int(hashlib.md5(s.encode()).hexdigest(), 16)`: the digest read as a
big-endian integer. -/
def md5Int (s : String) : Nat :=
  (md5Bytes (strBytes s)).foldl (fun acc b => acc * 256 + b) 0

/-! ### SHA-256 over byte lists -/

/-- SHA-256 round constants. -/
def sha256K : List Nat :=
  [1116352408, 1899447441, 3049323471, 3921009573, 961987163, 1508970993, 2453635748, 2870763221,
   3624381080, 310598401, 607225278, 1426881987, 1925078388, 2162078206, 2614888103, 3248222580,
   3835390401, 4022224774, 264347078, 604807628, 770255983, 1249150122, 1555081692, 1996064986,
   2554220882, 2821834349, 2952996808, 3210313671, 3336571891, 3584528711, 113926993, 338241895,
   666307205, 773529912, 1294757372, 1396182291, 1695183700, 1986661051, 2177026350, 2456956037,
   2730485921, 2820302411, 3259730800, 3345764771, 3516065817, 3600352804, 4094571909, 275423344,
   430227734, 506948616, 659060556, 883997877, 958139571, 1322822218, 1537002063, 1747873779,
   1955562222, 2024104815, 2227730452, 2361852424, 2428436474, 2756734187, 3204031479, 3329325298]

/-- 32-bit right rotation. -/
def rotr32 (x n : Nat) : Nat :=
  ((x >>> n) ||| (x <<< (32 - n))) % m32

/-- Big-endian 32-bit word `g` of a 64-byte chunk. -/
def chunkWordBE (chunk : List Nat) (g : Nat) : Nat :=
  16777216 * chunk.getD (4 * g) 0 + 65536 * chunk.getD (4 * g + 1) 0 +
    256 * chunk.getD (4 * g + 2) 0 + chunk.getD (4 * g + 3) 0

/-- SHA-256 message schedule: extend 16 big-endian words to 64. -/
def sha256Schedule (chunk : List Nat) : List Nat :=
  (List.range 64).foldl
    (fun w i =>
      if i < 16 then w ++ [chunkWordBE chunk i]
      else
        let w15 := w.getD (i - 15) 0
        let w2 := w.getD (i - 2) 0
        let s0 := rotr32 w15 7 ^^^ rotr32 w15 18 ^^^ (w15 >>> 3)
        let s1 := rotr32 w2 17 ^^^ rotr32 w2 19 ^^^ (w2 >>> 10)
        w ++ [(w.getD (i - 16) 0 + s0 + w.getD (i - 7) 0 + s1) % m32])
    []

/-- SHA-256 working state: eight 32-bit words. -/
structure Sha256St where
  a : Nat
  b : Nat
  c : Nat
  d : Nat
  e : Nat
  f : Nat
  g : Nat
  h : Nat

/-- One SHA-256 compression round. -/
def sha256Round (w : List Nat) (st : Sha256St) (i : Nat) : Sha256St :=
  let s1 := rotr32 st.e 6 ^^^ rotr32 st.e 11 ^^^ rotr32 st.e 25
  let ch := (st.e &&& st.f) ^^^ ((st.e ^^^ 0xffffffff) &&& st.g)
  let t1 := (st.h + s1 + ch + sha256K.getD i 0 + w.getD i 0) % m32
  let s0 := rotr32 st.a 2 ^^^ rotr32 st.a 13 ^^^ rotr32 st.a 22
  let mj := (st.a &&& st.b) ^^^ (st.a &&& st.c) ^^^ (st.b &&& st.c)
  let t2 := (s0 + mj) % m32
  ⟨(t1 + t2) % m32, st.a, st.b, st.c, (st.d + t1) % m32, st.e, st.f, st.g⟩

/-- SHA-256 compression of one 64-byte chunk. -/
def sha256Compress (st : Sha256St) (chunk : List Nat) : Sha256St :=
  let w := sha256Schedule chunk
  let r := (List.range 64).foldl (sha256Round w) st
  ⟨(st.a + r.a) % m32, (st.b + r.b) % m32, (st.c + r.c) % m32, (st.d + r.d) % m32,
   (st.e + r.e) % m32, (st.f + r.f) % m32, (st.g + r.g) % m32, (st.h + r.h) % m32⟩

/-- Fuelled SHA-256 chunk loop. -/
def sha256Loop : Nat → Sha256St → List Nat → Sha256St
  | 0, st, _ => st
  | _ + 1, st, [] => st
  | fuel + 1, st, bytes => sha256Loop fuel (sha256Compress st (bytes.take 64)) (bytes.drop 64)

/-- Big-endian byte expansion of one 32-bit word. -/
def wordBytesBE (w : Nat) : List Nat :=
  [w / 16777216 % 256, w / 65536 % 256, w / 256 % 256, w % 256]

/-- SHA-256 padding: `0x80`, zeros to 56 mod 64, 8-byte big-endian bit length. -/
def sha256Pad (msg : List Nat) : List Nat :=
  let len := msg.length
  let zc := (120 - (len + 1) % 64) % 64
  let bitLen := 8 * len % 18446744073709551616
  msg ++ [0x80] ++ List.replicate zc 0 ++
    [bitLen / 72057594037927936 % 256, bitLen / 281474976710656 % 256,
     bitLen / 1099511627776 % 256, bitLen / 4294967296 % 256,
     bitLen / 16777216 % 256, bitLen / 65536 % 256, bitLen / 256 % 256, bitLen % 256]

/-- SHA-256 digest (32 bytes) of a byte list. -/
def sha256Bytes (msg : List Nat) : List Nat :=
  let padded := sha256Pad msg
  let st := sha256Loop padded.length
    ⟨0x6a09e667, 0xbb67ae85, 0x3c6ef372, 0xa54ff53a, 0x510e527f, 0x9b05688c, 0x1f83d9ab, 0x5be0cd19⟩
    padded
  wordBytesBE st.a ++ wordBytesBE st.b ++ wordBytesBE st.c ++ wordBytesBE st.d ++
    wordBytesBE st.e ++ wordBytesBE st.f ++ wordBytesBE st.g ++ wordBytesBE st.h

/-- `hashlib.sha256(s.encode()).hexdigest()`. -/
def sha256Hex (s : String) : String :=
  bytesHex (sha256Bytes (strBytes s))


/-! ### Transaction records: JSON-like association lists

A transaction record is a Python dict; the engine reads string fields plus the
one nested mapping `transactionAmount` (strings inside). `JVal` covers exactly
those two shapes of values.
-/

inductive JVal where
  | str (s : String)
  | obj (fields : List (String × String))
deriving DecidableEq, Repr

/-- A transaction record: an insertion-ordered dict of named fields. -/
abbrev TxRecord := List (String × JVal)

/-- `k in d` for an insertion-ordered dict. -/
def dictHas (m : List (String × α)) (k : String) : Bool :=
  m.any (fun p => p.1 == k)

/-- `d.get(k, default)`. -/
def dictGetD (m : List (String × α)) (k : String) (d : α) : α :=
  (List.lookup k m).getD d

/-- `d[k] = v`: replace in place if the key exists, else append (dict
insertion-order semantics). -/
def dictSet : List (String × α) → String → α → List (String × α)
  | [], k, v => [(k, v)]
  | (k', v') :: rest, k, v =>
      if k' == k then (k, v) :: rest else (k', v') :: dictSet rest k v

/-- The characters `{` and `}` (written by code point to keep string literals
plain). -/
def lbrace : Char := Char.ofNat 123

def rbrace : Char := Char.ofNat 125

/-- Four lowercase hex characters of a 16-bit value. -/
def u16Hex (n : Nat) : List Char :=
  [hexChars.getD (n / 4096 % 16) 'x', hexChars.getD (n / 256 % 16) 'x',
   hexChars.getD (n / 16 % 16) 'x', hexChars.getD (n % 16) 'x']

/-- `json.dumps` escaping of one character (`ensure_ascii=True`). -/
def jsonEscapeChar (c : Char) : List Char :=
  if c = '"' then ['\\', '"']
  else if c = '\\' then ['\\', '\\']
  else if c = '\n' then ['\\', 'n']
  else if c = '\t' then ['\\', 't']
  else if c = '\r' then ['\\', 'r']
  else if c.toNat = 8 then ['\\', 'b']
  else if c.toNat = 12 then ['\\', 'f']
  else if c.toNat < 0x20 || 0x7e < c.toNat then
    if c.toNat < 0x10000 then '\\' :: 'u' :: u16Hex c.toNat
    else
      let n := c.toNat - 0x10000
      ('\\' :: 'u' :: u16Hex (0xd800 + n / 1024)) ++ ('\\' :: 'u' :: u16Hex (0xdc00 + n % 1024))
  else [c]

/-- A JSON string literal with escaping. -/
def jsonStrLit (s : String) : List Char :=
  '"' :: s.data.foldr (fun c acc => jsonEscapeChar c ++ acc) [] ++ ['"']

/-- Join character lists with a separator. -/
def joinChars (sep : List Char) : List (List Char) → List Char
  | [] => []
  | [x] => x
  | x :: y :: xs => x ++ sep ++ joinChars sep (y :: xs)

/-- Keys sorted lexicographically, as `sort_keys=True` sorts them. -/
def sortByKey (l : List (String × α)) : List (String × α) :=
  l.mergeSort (fun p q => decide (p.1 ≤ q.1))

/-- One `"key": value` item of a serialized object. -/
def jsonItem : String × JVal → List Char
  | (k, .str s) => jsonStrLit k ++ ':' :: ' ' :: jsonStrLit s
  | (k, .obj fields) =>
      jsonStrLit k ++ ':' :: ' ' :: lbrace ::
        joinChars [',', ' ']
          ((sortByKey fields).map (fun p => jsonStrLit p.1 ++ ':' :: ' ' :: jsonStrLit p.2)) ++
        [rbrace]

/-- `json.dumps(record, sort_keys=True)`: keys sorted at every level, default
separators. -/
def jsonDumps (tx : TxRecord) : String :=
  String.mk (lbrace :: joinChars [',', ' '] ((sortByKey tx).map jsonItem) ++ [rbrace])

/-- The single-quote character. -/
def squote : Char := Char.ofNat 39

/-- `str.join`: elements interleaved with the separator. -/
def pyJoin (sep : String) : List String → String
  | [] => ""
  | [x] => x
  | x :: y :: xs => x ++ sep ++ pyJoin sep (y :: xs)

/-- Python `str()` of a field value as an f-string interpolates it. For a
nested dict this is its `repr`; the engine only ever interpolates plain
strings, so the `repr` arm is exercised by no claim and sticks to quote-free
printable content. -/
def pyStr : JVal → String
  | .str s => s
  | .obj fields =>
      String.mk (lbrace ::
        joinChars [',', ' ']
          (fields.map (fun p => squote :: p.1.data ++ squote :: ':' :: ' ' :: squote :: p.2.data ++ [squote])) ++
        [rbrace])

/-! ### The key deriver (`_create_transaction_key`)

Shared verbatim by `TransactionParser` and `TransactionAnonymizer`. The only
way the Python body can raise on a dict input is `.get` on a
`transactionAmount` that is not itself a mapping; that failure is surfaced as
`Except.error`.
-/

/-- The `amount:{amount}:{currency}` token, or an error when
`transactionAmount` is present but not a mapping. -/
def amountToken (tx : TxRecord) : Except String (List String) :=
  match List.lookup "transactionAmount" tx with
  | none => .ok []
  | some (.obj l) => .ok ["amount:" ++ dictGetD l "amount" "" ++ ":" ++ dictGetD l "currency" ""]
  | some (.str _) => .error "AttributeError: str has no attribute get"

/-- `_create_transaction_key`: priority-ordered identifying tokens joined by
`|`, with an MD5 content-hash fallback over the canonically sorted record. -/
def createTransactionKey (tx : TxRecord) : Except String String :=
  let idPart : List String :=
    match List.lookup "transactionId" tx with
    | some v => ["id:" ++ pyStr v]
    | none => []
  match amountToken tx with
  | .error e => .error e
  | .ok amtPart =>
    let datePart : List String :=
      match List.lookup "bookingDate" tx with
      | some v => ["date:" ++ pyStr v]
      | none => []
    let credPart : List String :=
      match List.lookup "creditorName" tx with
      | some v => ["creditor:" ++ pyStr v]
      | none => []
    let keyParts := idPart ++ amtPart ++ datePart ++ credPart
    match keyParts with
    | [] => .ok ("hash:" ++ md5Hex (jsonDumps tx))
    | _ => .ok (pyJoin "|" keyParts)


/-! ### String helpers shared by the mapper -/

/-- Does `needle` start `hay`? -/
def listStartsWith : List Char → List Char → Bool
  | [], _ => true
  | _ :: _, [] => false
  | n :: ns, h :: hs => n == h && listStartsWith ns hs

/-- Substring search over character lists. -/
def containsSub (needle : List Char) : List Char → Bool
  | [] => listStartsWith needle []
  | h :: hs => listStartsWith needle (h :: hs) || containsSub needle hs

/-- Python `needle in hay` on strings. -/
def strContains (hay needle : String) : Bool :=
  containsSub needle.data hay.data

/-- Python `str.upper` (ASCII range). -/
def toUpperAscii (s : String) : String :=
  String.mk (s.data.map Char.toUpper)

/-- Zero-pad a numeral on the left to width `w`. -/
def padZeros (w : Nat) (s : String) : String :=
  if s.length < w then String.mk (List.replicate (w - s.length) '0') ++ s else s

/-- `pattern.format(n)` for the one placeholder shape `PREFIX{:0Wd}` used by
the reference patterns. -/
def pyFormat (pattern : String) (n : Nat) : String :=
  let pre := pattern.data.takeWhile (fun c => c ≠ lbrace)
  let rest := pattern.data.dropWhile (fun c => c ≠ lbrace)
  let wDigits := (rest.drop 2).takeWhile Char.isDigit
  let w := (String.mk wDigits).toNat?.getD 0
  String.mk pre ++ padZeros w (toString n)

/-! ### The pseudonymization mapper (`TransactionAnonymizer`) -/

/-- Fake merchant catalogue, in source order. -/
def fakeMerchants : List String :=
  ["AMAZON", "TESCO", "SAINSBURY'S", "ASDA", "MORRISONS", "WAITROSE",
   "MARKS & SPENCER", "JOHN LEWIS", "NEXT", "H&M", "ZARA", "PRIMARK",
   "STARBUCKS", "COSTA COFFEE", "MCDONALD'S", "KFC", "SUBWAY", "GREGGS",
   "SPOTIFY", "NETFLIX", "DISNEY+", "AMAZON PRIME", "APPLE", "GOOGLE",
   "VODAFONE", "EE", "O2", "THREE", "BT", "SKY", "VIRGIN MEDIA",
   "SHELL", "BP", "ESSO", "TEXACO", "SAINSBURY'S PETROL", "TESCO PETROL",
   "UBER", "DELIVEROO", "JUST EAT", "BOLT", "CITY MAPPER", "TFL",
   "BOOTS", "SUPERDRUG", "HOLLAND & BARRETT", "SPECSAVERS", "VISION EXPRESS",
   "ARGOS", "CURRYS", "SCREWFIX", "B&Q", "HOMEBASE", "IKEA",
   "PIZZA EXPRESS", "NANDOS", "WAGAMAMA", "YO! SUSHI", "LEON", "PRET A MANGER",
   "CINEMA CITY", "ODEON", "VUE CINEMAS", "GYM GROUP", "PURE GYM", "DAVID LLOYD",
   "LLOYDS BANK", "BARCLAYS", "HSBC", "NATWEST", "SANTANDER", "TSB",
   "PAYPAL", "REVOLUT", "MONZO", "STARLING BANK", "WISE", "KLARNA"]

/-- Reference patterns, in source order (brace and close-brace written as
code-point escapes). -/
def referencePatterns : List String :=
  ["REF\x7b:08d\x7d", "TXN\x7b:06d\x7d", "PAY\x7b:07d\x7d", "INV\x7b:05d\x7d",
   "ORD\x7b:06d\x7d", "PMT\x7b:08d\x7d", "TRF\x7b:07d\x7d", "DD\x7b:06d\x7d"]

/-- First-name catalogue, in source order. -/
def firstNames : List String :=
  ["JAMES", "JOHN", "ROBERT", "MICHAEL", "WILLIAM", "DAVID", "RICHARD", "JOSEPH",
   "THOMAS", "CHRISTOPHER", "CHARLES", "DANIEL", "MATTHEW", "ANTHONY", "MARK",
   "SARAH", "JESSICA", "JENNIFER", "ASHLEY", "EMMA", "OLIVIA", "ELIZABETH",
   "SOPHIE", "CHARLOTTE", "LUCY", "HANNAH", "GRACE", "ELLIE", "CHLOE", "EMILY"]

/-- Surname catalogue, in source order. -/
def surnames : List String :=
  ["SMITH", "JONES", "TAYLOR", "WILLIAMS", "BROWN", "DAVIES", "EVANS", "WILSON",
   "THOMAS", "ROBERTS", "JOHNSON", "LEWIS", "WALKER", "ROBINSON", "THOMPSON",
   "WHITE", "WATSON", "JACKSON", "WRIGHT", "GREEN", "HARRIS", "COOPER", "KING",
   "LEE", "MARTIN", "CLARKE", "JAMES", "MORGAN", "HUGHES", "EDWARDS", "HILL"]

/-- City tokens looked for in the original creditor name. -/
def cityMarkers : List String := ["LONDON", "MANCHESTER", "BIRMINGHAM", "LEEDS", "GLASGOW"]

/-- City catalogue for the fake location suffix. -/
def cityList : List String :=
  ["LONDON", "MANCHESTER", "BIRMINGHAM", "LEEDS", "GLASGOW", "BRISTOL", "LIVERPOOL"]

/-- Title markers checked against the uppercased reference. -/
def titleMarkers : List String := ["MR ", "MRS ", "MISS ", "MS "]

/-- The mapper state: per-field substitution caches (insertion-ordered
dicts). `random.seed(seed)` seeds a module RNG the engine never draws from
afterward; the seed is recorded and otherwise inert. -/
structure Anonymizer where
  seed : Nat
  account_id_map : List (String × String)
  creditor_name_map : List (String × String)
  reference_map : List (String × String)
  transaction_id_map : List (String × String)
  transaction_key_map : List (String × String)
deriving DecidableEq, Repr

/-- A freshly constructed `TransactionAnonymizer(seed)`. -/
def mkAnonymizer (seed : Nat) : Anonymizer :=
  ⟨seed, [], [], [], [], []⟩

/-- `str(uuid.UUID(hex32))`: the 32 hex digits grouped 8-4-4-4-12. -/
def uuidFormat (hex32 : String) : String :=
  let d := hex32.data
  String.mk (d.take 8 ++ '-' :: (d.drop 8).take 4 ++ '-' :: (d.drop 12).take 4 ++
    '-' :: (d.drop 16).take 4 ++ '-' :: d.drop 20)

/-- `anonymize_account_id`: cached deterministic fake UUID from the MD5 of the
original. -/
def anonymizeAccountId (st : Anonymizer) (originalId : String) : String × Anonymizer :=
  match List.lookup originalId st.account_id_map with
  | some v => (v, st)
  | none =>
      let fake := uuidFormat (md5Hex originalId)
      (fake, { st with account_id_map := st.account_id_map ++ [(originalId, fake)] })

/-- Python slice `s[:n]` (by code point). -/
def strTake (s : String) (n : Nat) : String :=
  String.mk (s.data.take n)

/-- Python `str.startswith`. -/
def pyStartsWith (s pre : String) : Bool :=
  listStartsWith pre.data s.data

/-- The uncached body of `anonymize_transaction_id`: format-preserving fake
identifier. -/
def fakeTransactionId (originalId : String) : String :=
  if pyStartsWith originalId "T" then "T" ++ strTake (md5Hex originalId) 31
  else if pyStartsWith originalId "tx_" then "tx_" ++ strTake (md5Hex originalId) 20
  else if originalId.length > 50 then sha256Hex originalId
  else "TXN" ++ strTake (md5Hex originalId) 16

/-- `anonymize_transaction_id`: cached `fakeTransactionId`. -/
def anonymizeTransactionId (st : Anonymizer) (originalId : String) : String × Anonymizer :=
  match List.lookup originalId st.transaction_id_map with
  | some v => (v, st)
  | none =>
      let fake := fakeTransactionId originalId
      (fake, { st with transaction_id_map := st.transaction_id_map ++ [(originalId, fake)] })

/-- The uncached body of `anonymize_creditor_name`: hash-selected merchant,
with a hash-selected city suffix when the original mentions a city. -/
def fakeCreditorName (name : String) : String :=
  let h := md5Int name
  let merchant := fakeMerchants.getD (h % fakeMerchants.length) ""
  if cityMarkers.any (fun city => strContains (toUpperAscii name) city) then
    merchant ++ " " ++ cityList.getD (h % cityList.length) ""
  else merchant

/-- `anonymize_creditor_name`: empty (falsy) names pass through untouched,
others are cached substitutions. -/
def anonymizeCreditorName (st : Anonymizer) (name : String) : String × Anonymizer :=
  if name = "" then (name, st)
  else
    match List.lookup name st.creditor_name_map with
    | some v => (v, st)
    | none =>
        let fake := fakeCreditorName name
        (fake, { st with creditor_name_map := st.creditor_name_map ++ [(name, fake)] })

/-- `anonymize_personal_name`: first name and surname picked by two slices of
one MD5 value. -/
def anonymizePersonalName (name : String) : String :=
  if name = "" then name
  else
    let h := md5Int name
    firstNames.getD (h % firstNames.length) "" ++ " " ++
      surnames.getD (h / 100 % surnames.length) ""

/-- `[A-Z]` test. -/
def isUpperAZ (c : Char) : Bool := 'A' ≤ c && c ≤ 'Z'

/-- Python `\d` test (ASCII range; the corpus and all inputs considered here
are ASCII). -/
def isDigit09 (c : Char) : Bool := '0' ≤ c && c ≤ '9'

/-- `[A-Z0-9]` test. -/
def isUpperOrDigit (c : Char) : Bool := isUpperAZ c || isDigit09 c

/-- Does `[A-Z]{2}\d{2}[A-Z0-9]{4}` match at the head? -/
def acctPatHead : List Char → Bool
  | a :: b :: c :: d :: e :: f :: g :: h :: _ =>
      isUpperAZ a && isUpperAZ b && isDigit09 c && isDigit09 d &&
        isUpperOrDigit e && isUpperOrDigit f && isUpperOrDigit g && isUpperOrDigit h
  | _ => false

/-- `re.search` of the bank-account pattern. -/
def hasAcctPat : List Char → Bool
  | [] => false
  | c :: rest => acctPatHead (c :: rest) || hasAcctPat rest

/-- `re.sub` of the bank-account pattern: every non-overlapping match,
scanning left to right, is replaced by `rep`. -/
def subAcctPat (rep : List Char) : List Char → List Char
  | c1 :: c2 :: c3 :: c4 :: c5 :: c6 :: c7 :: c8 :: rest =>
      if acctPatHead (c1 :: c2 :: c3 :: c4 :: c5 :: c6 :: c7 :: c8 :: rest) then
        rep ++ subAcctPat rep rest
      else
        c1 :: subAcctPat rep (c2 :: c3 :: c4 :: c5 :: c6 :: c7 :: c8 :: rest)
  | l => l

/-- Does `\d{4}` match at the head? -/
def digits4Head : List Char → Bool
  | a :: b :: c :: d :: _ => isDigit09 a && isDigit09 b && isDigit09 c && isDigit09 d
  | _ => false

/-- `re.search(r'\d\x7b4\x7d', s)` as a Boolean. -/
def has4Digits : List Char → Bool
  | [] => false
  | c :: rest => digits4Head (c :: rest) || has4Digits rest

/-- `re.sub` of `\d\x7b4\x7d`: every non-overlapping four-digit run, scanning
left to right, is replaced by `rep`. -/
def sub4Digits (rep : List Char) : List Char → List Char
  | a :: b :: c :: d :: rest =>
      if isDigit09 a && isDigit09 b && isDigit09 c && isDigit09 d then
        rep ++ sub4Digits rep rest
      else
        a :: sub4Digits rep (b :: c :: d :: rest)
  | l => l

/-- The uncached body of `anonymize_reference`: the four-way pattern dispatch,
in source order. -/
def fakeReference (ref : String) : String :=
  let refUpper := toUpperAscii ref
  if titleMarkers.any (fun t => strContains refUpper t) then
    anonymizePersonalName ref
  else if hasAcctPat ref.data then
    String.mk (subAcctPat "GB29FAKE0123456789".data ref.data)
  else if has4Digits ref.data then
    let h := md5Int ref
    String.mk (sub4Digits (padZeros 4 (toString (h % 10000))).data ref.data)
  else
    let h := md5Int ref
    pyFormat (referencePatterns.getD (h % referencePatterns.length) "") (h % 100000000)

/-- `anonymize_reference`: empty (falsy) references pass through untouched,
others are cached substitutions. -/
def anonymizeReference (st : Anonymizer) (ref : String) : String × Anonymizer :=
  if ref = "" then (ref, st)
  else
    match List.lookup ref st.reference_map with
    | some v => (v, st)
    | none =>
        let fake := fakeReference ref
        (fake, { st with reference_map := st.reference_map ++ [(ref, fake)] })


/-! ### Amount jitter (`anonymize_amount`)

Python floats are modelled by exact rationals. The parser below accepts plain
signed decimal numerals — a subset of `float()`'s grammar — and is exact on
it; `f"[..]:.2f"`-style output is modelled by round-half-even at two fraction
digits, which agrees with Python away from representation-edge ties.
-/

/-- Value of an ASCII digit run. -/
def digitsVal (l : List Char) : Nat :=
  l.foldl (fun acc c => acc * 10 + (c.toNat - 48)) 0

/-- `float(s)` on plain signed decimal numerals. -/
def pyParseFloat (s : String) : Option ℚ :=
  let signRest : ℚ × List Char :=
    match s.data with
    | '-' :: r => (-1, r)
    | '+' :: r => (1, r)
    | r => (1, r)
  let rest := signRest.2
  let intPart := rest.takeWhile isDigit09
  match rest.dropWhile isDigit09 with
  | [] =>
      if intPart.isEmpty then none
      else some (signRest.1 * (digitsVal intPart : ℚ))
  | '.' :: frac =>
      let fracD := frac.takeWhile isDigit09
      if frac.dropWhile isDigit09 ≠ [] then none
      else if intPart.isEmpty ∧ fracD.isEmpty then none
      else some (signRest.1 * ((digitsVal intPart : ℚ) + (digitsVal fracD : ℚ) / 10 ^ fracD.length))
  | _ => none

/-- Round to the nearest integer, ties to even. -/
def roundHalfEven (q : ℚ) : ℤ :=
  let f := ⌊q⌋
  let frac := q - f
  if frac < 1 / 2 then f
  else if 1 / 2 < frac then f + 1
  else if f % 2 = 0 then f else f + 1

/-- Two-fraction-digit rendering of a rational, as `f"[..]:.2f"` renders the
corresponding float. -/
def fmt2 (q : ℚ) : String :=
  let n := (roundHalfEven (q * 100)).natAbs
  (if q < 0 then "-" else "") ++ toString (n / 100) ++ "." ++ padZeros 2 (toString (n % 100))

/-- The deterministic signed jitter fraction of `anonymize_amount`. -/
def jitterOf (s : String) (variancePercent : ℚ) : ℚ :=
  (md5Int s % 1000 : Nat) / 1000 * variancePercent * 2 - variancePercent

/-- `anonymize_amount`: jitter the parsed amount by a hash-derived fraction
and format to two fraction digits; unparsable input passes through. -/
def anonymizeAmount (s : String) (variancePercent : ℚ) : String :=
  match pyParseFloat s with
  | none => s
  | some a => fmt2 (a * (1 + jitterOf s variancePercent))

/-! ### Record- and envelope-level anonymization

In Python `anonymized = transaction.copy()` is a shallow copy mutated field by
field; here each update is a functional `dictSet`. A field whose value has the
wrong shape for its transform makes the Python raise; that is surfaced as
`Except.error`.
-/

/-- Transform a string field in place if present; a non-string value would
make the Python body raise. -/
def anonymizeStrField (tx : TxRecord) (field : String) (f : String → String) :
    Except String TxRecord :=
  match List.lookup field tx with
  | none => .ok tx
  | some (.str v) => .ok (dictSet tx field (.str (f v)))
  | some (.obj _) => .error ("TypeError: non-string " ++ field)

/-- Transform a string field through a cached mapper operation. -/
def anonymizeCachedField (st : Anonymizer) (tx : TxRecord) (field : String)
    (op : Anonymizer → String → String × Anonymizer) :
    Except String (TxRecord × Anonymizer) :=
  match List.lookup field tx with
  | none => .ok (tx, st)
  | some (.str v) =>
      let r := op st v
      .ok (dictSet tx field (.str r.1), r.2)
  | some (.obj _) => .error ("TypeError: non-string " ++ field)

/-- The amount step: `if 'transactionAmount' in tx and 'amount' in
tx['transactionAmount']`. On a string-valued `transactionAmount`, `in` is a
substring test and the subsequent item assignment raises. -/
def anonymizeAmountField (tx : TxRecord) : Except String TxRecord :=
  match List.lookup "transactionAmount" tx with
  | none => .ok tx
  | some (.obj l) =>
      if dictHas l "amount" then
        .ok (dictSet tx "transactionAmount"
          (.obj (dictSet l "amount" (anonymizeAmount (dictGetD l "amount" "") (1 / 10)))))
      else .ok tx
  | some (.str s) =>
      if strContains s "amount" then .error "TypeError: str item assignment" else .ok tx

/-- `anonymize_transaction`: field-by-field substitution plus the
before-and-after key correspondence record. -/
def anonymizeTransaction (st : Anonymizer) (tx : TxRecord) :
    Except String (TxRecord × Anonymizer) := do
  let originalKey ← createTransactionKey tx
  let (tx, st) ← anonymizeCachedField st tx "transactionId" anonymizeTransactionId
  let (tx, st) ← anonymizeCachedField st tx "creditorName" anonymizeCreditorName
  let tx ← anonymizeStrField tx "debtorName" anonymizePersonalName
  let (tx, st) ← anonymizeCachedField st tx "remittanceInformationUnstructured" anonymizeReference
  let (tx, st) ← anonymizeCachedField st tx "additionalInformation" anonymizeReference
  let (tx, st) ← anonymizeCachedField st tx "entryReference" anonymizeReference
  let tx ← anonymizeAmountField tx
  let tx ← anonymizeStrField tx "internalTransactionId" md5Hex
  let anonymizedKey ← createTransactionKey tx
  .ok (tx, { st with transaction_key_map := dictSet st.transaction_key_map originalKey anonymizedKey })

/-- An envelope: one captured snapshot of an account's transactions. Fields
besides the ones the engine reads or rewrites are carried through verbatim by
the Python and are not modelled. -/
structure Envelope where
  accountId : String
  createdAt : String
  requisitionId : Option String
  traceId : Option String
  pending : List TxRecord
  booked : List TxRecord
deriving DecidableEq, Repr

/-- Anonymize a transaction list left to right, threading the mapper state. -/
def anonymizeTxList (st : Anonymizer) : List TxRecord → Except String (List TxRecord × Anonymizer)
  | [] => .ok ([], st)
  | tx :: rest => do
      let (tx1, st1) ← anonymizeTransaction st tx
      let (rest1, st2) ← anonymizeTxList st1 rest
      .ok (tx1 :: rest1, st2)

/-- `anonymize_transaction_file`. `uuid.uuid4()` draws OS entropy that
`random.seed` does not control; the draws are modelled by an explicit entropy
stream `entropy` and a draw counter `n`. -/
def anonymizeTransactionFile (st : Anonymizer) (entropy : Nat → String) (n : Nat)
    (env : Envelope) : Except String (Envelope × Anonymizer × Nat) :=
  let acc := anonymizeAccountId st env.accountId
  let req : Option String × Nat :=
    match env.requisitionId with
    | none => (none, n)
    | some _ => (some (entropy n), n + 1)
  let trc : Option String × Nat :=
    match env.traceId with
    | none => (none, req.2)
    | some _ => (some (entropy req.2), req.2 + 1)
  match anonymizeTxList acc.2 env.pending with
  | .error err => .error err
  | .ok (pend, st2) =>
      match anonymizeTxList st2 env.booked with
      | .error err => .error err
      | .ok (book, st3) =>
          .ok ({ accountId := acc.1, createdAt := env.createdAt, requisitionId := req.1,
                 traceId := trc.1, pending := pend, booked := book }, st3, trc.2)

/-- The orchestrator: `anonymize_transaction_file` over every envelope in
order, with one mapper instance. -/
def anonymizeCorpus (st : Anonymizer) (entropy : Nat → String) (n : Nat) :
    List Envelope → Except String (List Envelope × Anonymizer × Nat)
  | [] => .ok ([], st, n)
  | e :: es =>
      match anonymizeTransactionFile st entropy n e with
      | .error err => .error err
      | .ok (e1, st1, n1) =>
          match anonymizeCorpus st1 entropy n1 es with
          | .error err => .error err
          | .ok (es1, st2, n2) => .ok (e1 :: es1, st2, n2)

/-! ### The relationship analyzer (`_analyze_transaction_relationships`) -/

/-- The key function as the analyzer applies it. On every record whose
`transactionAmount` (when present) is a mapping — all records of the data
model — this is exactly the Python key; on any other record the Python
analyzer raises instead. -/
def txKey (tx : TxRecord) : String :=
  match createTransactionKey tx with
  | .ok s => s
  | .error e => "KeyError:" ++ e

/-- One sighting of a transaction: the record and the capture timestamp of
the envelope it appeared in. -/
structure Sighting where
  tx : TxRecord
  timestamp : String
deriving DecidableEq, Repr

/-- Append `v` to the group of `k`, creating the group at the end on first
sight (dict insertion-order semantics). -/
def addGroup (k : String) (v : α) : List (String × List α) → List (String × List α)
  | [] => [(k, [v])]
  | (k', vs) :: rest =>
      if k' == k then (k', vs ++ [v]) :: rest else (k', vs) :: addGroup k v rest

/-- Group envelopes by account, preserving first-seen account order. -/
def groupByAccount (envs : List Envelope) : List (String × List Envelope) :=
  envs.foldl (fun acc e => addGroup e.accountId e acc) []

/-- Collect one state's sightings of an account's envelopes, grouped by
identity key. -/
def sightingsOf (envs : List Envelope) (proj : Envelope → List TxRecord) :
    List (String × List Sighting) :=
  envs.foldl
    (fun acc e => (proj e).foldl (fun acc2 tx => addGroup (txKey tx) ⟨tx, e.createdAt⟩ acc2) acc)
    []

/-- `min(entries, key=timestamp)`: the first entry carrying the minimal
timestamp. -/
def minByTs (l : List Sighting) : Sighting :=
  match l with
  | [] => ⟨[], ""⟩
  | s :: rest => rest.foldl (fun best x => if x.timestamp < best.timestamp then x else best) s

/-- One detected pending-to-booked transition. -/
structure TransitionEntry where
  account_id : String
  transaction_key : String
  pending_first_seen : String
  booked_first_seen : String
  pending_count : Nat
  booked_count : Nat
deriving DecidableEq, Repr

/-- One detected duplicate pattern. -/
structure DupEntry where
  account_id : String
  transaction_key : String
  occurrence_count : Nat
  timestamps : List String
deriving DecidableEq, Repr

/-- The transition scan of one account. -/
def accountTransitions (accountId : String) (pend bookd : List (String × List Sighting)) :
    List TransitionEntry :=
  pend.foldl
    (fun acc p =>
      match List.lookup p.1 bookd with
      | none => acc
      | some blist =>
          if (minByTs p.2).timestamp ≤ (minByTs blist).timestamp then
            acc ++ [⟨accountId, p.1, (minByTs p.2).timestamp, (minByTs blist).timestamp,
                     p.2.length, blist.length⟩]
          else acc)
    []

/-- `[..]**pending, **booked[..]`: the pending dict updated by the booked one,
booked lists shadowing pending lists on shared keys. -/
def dictMerge (p b : List (String × α)) : List (String × α) :=
  b.foldl (fun acc kv => dictSet acc kv.1 kv.2) p

/-- The duplicate scan of one account. -/
def accountDuplicates (accountId : String) (pend bookd : List (String × List Sighting)) :
    List DupEntry :=
  (dictMerge pend bookd).foldl
    (fun acc kv =>
      if kv.2.length > 1 then
        acc ++ [⟨accountId, kv.1, kv.2.length, kv.2.map (fun s => s.timestamp)⟩]
      else acc)
    []

/-- Ascending stable sort of an account's envelopes by capture timestamp. -/
def sortEnvs (envs : List Envelope) : List Envelope :=
  envs.mergeSort (fun a b => decide (a.createdAt ≤ b.createdAt))

/-- `_analyze_transaction_relationships`: the full relationship report,
transitions and duplicates, in account-group order. -/
def analyzeRelationships (envs : List Envelope) : List TransitionEntry × List DupEntry :=
  (groupByAccount envs).foldl
    (fun acc g =>
      let sorted := sortEnvs g.2
      let pend := sightingsOf sorted (fun e => e.pending)
      let bookd := sightingsOf sorted (fun e => e.booked)
      (acc.1 ++ accountTransitions g.1 pend bookd, acc.2 ++ accountDuplicates g.1 pend bookd))
    ([], [])


/-! ## General lemmas -/

theorem lookup_append_self {β : Type} (l : List (String × β)) (k : String) (v : β)
    (h : List.lookup k l = none) : List.lookup k (l ++ [(k, v)]) = some v := by
  induction l with
  | nil => simp [List.lookup]
  | cons p rest ih =>
      obtain ⟨k', v'⟩ := p
      cases hkp : (k == k') with
      | true => simp [List.lookup_cons, hkp] at h
      | false =>
          simp only [List.cons_append, List.lookup_cons, hkp, cond_false] at h ⊢
          exact ih h

/-- Behavioural contract of one cached substitution operation: repeated calls
agree, an unseen value grows the cache by one entry, a seen value leaves the
state untouched. -/
def CacheSpec (op : Anonymizer → String → String × Anonymizer)
    (proj : Anonymizer → List (String × String)) (st : Anonymizer) (v : String) : Prop :=
  (op st v).1 = (op (op st v).2 v).1 ∧
  (List.lookup v (proj st) = none → (proj (op st v).2).length = (proj st).length + 1) ∧
  (List.lookup v (proj st) ≠ none → (op st v).2 = st)

theorem accountId_cacheSpec (st : Anonymizer) (v : String) :
    CacheSpec anonymizeAccountId (fun a => a.account_id_map) st v := by
  refine ⟨?_, ?_, ?_⟩
  · cases h : List.lookup v st.account_id_map with
    | some r => simp [anonymizeAccountId, h]
    | none => simp [anonymizeAccountId, h, lookup_append_self _ _ _ h]
  · intro h; simp [anonymizeAccountId, h]
  · intro h
    cases hh : List.lookup v st.account_id_map with
    | some r => simp [anonymizeAccountId, hh]
    | none => exact absurd hh h

theorem transactionId_cacheSpec (st : Anonymizer) (v : String) :
    CacheSpec anonymizeTransactionId (fun a => a.transaction_id_map) st v := by
  refine ⟨?_, ?_, ?_⟩
  · cases h : List.lookup v st.transaction_id_map with
    | some r => simp [anonymizeTransactionId, h]
    | none => simp [anonymizeTransactionId, h, lookup_append_self _ _ _ h]
  · intro h; simp [anonymizeTransactionId, h]
  · intro h
    cases hh : List.lookup v st.transaction_id_map with
    | some r => simp [anonymizeTransactionId, hh]
    | none => exact absurd hh h

theorem creditorName_cacheSpec (st : Anonymizer) (v : String) (hv : v ≠ "") :
    CacheSpec anonymizeCreditorName (fun a => a.creditor_name_map) st v := by
  refine ⟨?_, ?_, ?_⟩
  · cases h : List.lookup v st.creditor_name_map with
    | some r => simp [anonymizeCreditorName, hv, h]
    | none => simp [anonymizeCreditorName, hv, h, lookup_append_self _ _ _ h]
  · intro h; simp [anonymizeCreditorName, hv, h]
  · intro h
    cases hh : List.lookup v st.creditor_name_map with
    | some r => simp [anonymizeCreditorName, hv, hh]
    | none => exact absurd hh h

theorem reference_cacheSpec (st : Anonymizer) (v : String) (hv : v ≠ "") :
    CacheSpec anonymizeReference (fun a => a.reference_map) st v := by
  refine ⟨?_, ?_, ?_⟩
  · cases h : List.lookup v st.reference_map with
    | some r => simp [anonymizeReference, hv, h]
    | none => simp [anonymizeReference, hv, h, lookup_append_self _ _ _ h]
  · intro h; simp [anonymizeReference, hv, h]
  · intro h
    cases hh : List.lookup v st.reference_map with
    | some r => simp [anonymizeReference, hv, hh]
    | none => exact absurd hh h

/-! ## Claims -/

/-- C10: on an empty (falsy) input, `anonymize_creditor_name` and
`anonymize_reference` return the input unchanged and leave the whole mapper
state — in particular the creditor-name cache and the reference cache —
exactly as it was. -/
theorem claim_C10 (st : Anonymizer) :
    anonymizeCreditorName st "" = ("", st) ∧ anonymizeReference st "" = ("", st) := by
  constructor
  · simp [anonymizeCreditorName]
  · simp [anonymizeReference]

/-- C6 (amended): the cached substitution operations for account identifiers
and transaction identifiers satisfy, for every value, and the ones for
creditor names and free-text references satisfy for every non-empty value:
calling twice with the same original returns the identical fake both times;
a previously-unseen original grows the corresponding cache by exactly one
entry; an already-seen original leaves the state unchanged. (The empty
string bypasses the creditor-name and reference caches, see the
counterexample.) -/
theorem claim_C6_amended (st : Anonymizer) (v : String) :
    CacheSpec anonymizeAccountId (fun a => a.account_id_map) st v ∧
    CacheSpec anonymizeTransactionId (fun a => a.transaction_id_map) st v ∧
    (v ≠ "" → CacheSpec anonymizeCreditorName (fun a => a.creditor_name_map) st v) ∧
    (v ≠ "" → CacheSpec anonymizeReference (fun a => a.reference_map) st v) :=
  ⟨accountId_cacheSpec st v, transactionId_cacheSpec st v,
   creditorName_cacheSpec st v, reference_cacheSpec st v⟩

/-- C6, counterexample to the claim as stated: the empty string is a
previously-unseen value for the reference cache of a fresh mapper, yet
calling `anonymize_reference` with it does not grow that cache at all. -/
theorem claim_C6_counterexample :
    List.lookup "" (mkAnonymizer 42).reference_map = none ∧
    (anonymizeReference (mkAnonymizer 42) "").2.reference_map.length ≠
      (mkAnonymizer 42).reference_map.length + 1 := by
  constructor
  · rfl
  · simp [anonymizeReference, mkAnonymizer]

/-! ## Digest shape lemmas -/

theorem getD_mem_of_lt {α : Type} {l : List α} {i : Nat} (h : i < l.length) (d : α) :
    l.getD i d ∈ l := by
  rw [List.getD_eq_getElem l d h]
  exact List.getElem_mem h

theorem md5Bytes_length (msg : List Nat) : (md5Bytes msg).length = 16 := by
  simp [md5Bytes, wordBytesLE]

theorem md5Bytes_lt (msg : List Nat) : ∀ b ∈ md5Bytes msg, b < 256 := by
  intro b hb
  simp [md5Bytes, wordBytesLE] at hb
  rcases hb with h | h | h | h <;> rcases h with h | h | h | h <;> omega

theorem sha256Bytes_length (msg : List Nat) : (sha256Bytes msg).length = 32 := by
  simp [sha256Bytes, wordBytesBE]

theorem sha256Bytes_lt (msg : List Nat) : ∀ b ∈ sha256Bytes msg, b < 256 := by
  intro b hb
  simp [sha256Bytes, wordBytesBE] at hb
  rcases hb with h | h | h | h | h | h | h | h <;> rcases h with h | h | h | h <;> omega

theorem byteHex_mem_hexChars {b : Nat} (h : b < 256) : ∀ c ∈ byteHex b, c ∈ hexChars := by
  intro c hc
  have h1 : b / 16 < hexChars.length := by simp [hexChars]; omega
  have h2 : b % 16 < hexChars.length := by simp [hexChars]; omega
  have hc' : c ∈ [hexChars.getD (b / 16) 'x', hexChars.getD (b % 16) 'x'] := hc
  cases hc' with
  | head => exact getD_mem_of_lt h1 'x'
  | tail _ hc2 =>
      cases hc2 with
      | head => exact getD_mem_of_lt h2 'x'
      | tail _ hc3 => cases hc3

theorem bytesHex_data_length (bs : List Nat) : (bytesHex bs).data.length = 2 * bs.length := by
  induction bs with
  | nil => rfl
  | cons b rest ih =>
      show (byteHex b ++ (bytesHex rest).data).length = _
      rw [List.length_append, ih]
      simp [byteHex]
      omega

theorem bytesHex_mem (bs : List Nat) (hb : ∀ b ∈ bs, b < 256) :
    ∀ c ∈ (bytesHex bs).data, c ∈ hexChars := by
  induction bs with
  | nil => intro c hc; simp [bytesHex] at hc
  | cons b rest ih =>
      intro c hc
      have : (bytesHex (b :: rest)).data = byteHex b ++ (bytesHex rest).data := rfl
      rw [this, List.mem_append] at hc
      rcases hc with hc | hc
      · exact byteHex_mem_hexChars (hb b (by simp)) c hc
      · exact ih (fun x hx => hb x (by simp [hx])) c hc

theorem md5Hex_data_length (s : String) : (md5Hex s).data.length = 32 := by
  rw [md5Hex, bytesHex_data_length, md5Bytes_length]

theorem md5Hex_mem (s : String) : ∀ c ∈ (md5Hex s).data, c ∈ hexChars :=
  bytesHex_mem _ (md5Bytes_lt _)

theorem sha256Hex_length (s : String) : (sha256Hex s).length = 64 := by
  show (sha256Hex s).data.length = 64
  rw [sha256Hex, bytesHex_data_length, sha256Bytes_length]

theorem sha256Hex_mem (s : String) : ∀ c ∈ (sha256Hex s).data, c ∈ hexChars :=
  bytesHex_mem _ (sha256Bytes_lt _)

theorem strTake_md5_length (s : String) (n : Nat) (hn : n ≤ 32) :
    (strTake (md5Hex s) n).length = n := by
  show ((md5Hex s).data.take n).length = n
  rw [List.length_take, md5Hex_data_length]
  omega

theorem strTake_md5_mem (s : String) (n : Nat) :
    ∀ c ∈ (strTake (md5Hex s) n).data, c ∈ hexChars := by
  intro c hc
  exact md5Hex_mem s c (List.mem_of_mem_take hc)

/-- C8: `anonymize_transaction_id` is format-preserving over the four shape
classes, tested in source order: a `T`-prefixed identifier maps to `T` plus a
31-character hex suffix; otherwise a `tx_`-prefixed identifier maps to `tx_`
plus a 20-character hex (hence alphanumeric) suffix; otherwise an identifier
longer than 50 characters maps to a 64-character hex token (again longer than
50); any other identifier maps to the generic `TXN` format. The fake is a
pure function of the original string (an MD5 or SHA-256 of it), and a cache
miss of the stateful operation returns exactly this fake. -/
theorem claim_C8 (id : String) :
    (pyStartsWith id "T" = true →
      fakeTransactionId id = "T" ++ strTake (md5Hex id) 31 ∧
      (strTake (md5Hex id) 31).length = 31 ∧
      (∀ c ∈ (strTake (md5Hex id) 31).data, c ∈ hexChars)) ∧
    (pyStartsWith id "T" = false → pyStartsWith id "tx_" = true →
      fakeTransactionId id = "tx_" ++ strTake (md5Hex id) 20 ∧
      (strTake (md5Hex id) 20).length = 20 ∧
      (∀ c ∈ (strTake (md5Hex id) 20).data, c ∈ hexChars)) ∧
    (pyStartsWith id "T" = false → pyStartsWith id "tx_" = false → id.length > 50 →
      fakeTransactionId id = sha256Hex id ∧
      (fakeTransactionId id).length = 64 ∧
      (∀ c ∈ (fakeTransactionId id).data, c ∈ hexChars)) ∧
    (pyStartsWith id "T" = false → pyStartsWith id "tx_" = false → ¬(id.length > 50) →
      fakeTransactionId id = "TXN" ++ strTake (md5Hex id) 16 ∧
      (∀ c ∈ (strTake (md5Hex id) 16).data, c ∈ hexChars)) ∧
    (∀ c ∈ hexChars, c.isAlphanum = true) ∧
    (∀ st : Anonymizer, List.lookup id st.transaction_id_map = none →
      (anonymizeTransactionId st id).1 = fakeTransactionId id) := by
  refine ⟨?_, ?_, ?_, ?_, by decide, ?_⟩
  · intro h1
    refine ⟨by simp [fakeTransactionId, h1], strTake_md5_length id 31 (by omega), strTake_md5_mem id 31⟩
  · intro h1 h2
    refine ⟨by simp [fakeTransactionId, h1, h2], strTake_md5_length id 20 (by omega), strTake_md5_mem id 20⟩
  · intro h1 h2 h3
    have he : fakeTransactionId id = sha256Hex id := by simp [fakeTransactionId, h1, h2, h3]
    exact ⟨he, by rw [he]; exact sha256Hex_length id, by rw [he]; exact sha256Hex_mem id⟩
  · intro h1 h2 h3
    refine ⟨by simp [fakeTransactionId, h1, h2, h3], strTake_md5_mem id 16⟩
  · intro st hst
    simp [anonymizeTransactionId, hst]

set_option maxRecDepth 200000 in
/-- Witness for C8 at one concrete identifier of each shape class. -/
theorem claim_C8_witness :
    fakeTransactionId "T9" = "T" ++ strTake (md5Hex "T9") 31 ∧
    fakeTransactionId "tx_9" = "tx_" ++ strTake (md5Hex "tx_9") 20 ∧
    (fakeTransactionId "A2345678901234567890123456789012345678901234567890X").length = 64 ∧
    fakeTransactionId "X1" = "TXN" ++ strTake (md5Hex "X1") 16 :=
  ⟨((claim_C8 "T9").1 (by decide)).1,
   ((claim_C8 "tx_9").2.1 (by decide) (by decide)).1,
   ((claim_C8 "A2345678901234567890123456789012345678901234567890X").2.2.1
      (by decide) (by decide) (by decide)).2.1,
   ((claim_C8 "X1").2.2.2.1 (by decide) (by decide) (by decide)).1⟩

/-! ## C9: the reference dispatch as an ordered rule list -/

/-- The four reference rules as `(predicate, transform)` pairs in priority
order, the last predicate a catch-all — the specification's own model of the
dispatch. The account-number and digit-run transforms replace every
non-overlapping match, which is what `re.sub` does. -/
def refRules : List ((String → Bool) × (String → String)) :=
  [(fun r => titleMarkers.any (fun t => strContains (toUpperAscii r) t),
    fun r => anonymizePersonalName r),
   (fun r => hasAcctPat r.data,
    fun r => String.mk (subAcctPat "GB29FAKE0123456789".data r.data)),
   (fun r => has4Digits r.data,
    fun r => String.mk (sub4Digits (padZeros 4 (toString (md5Int r % 10000))).data r.data)),
   (fun _ => true,
    fun r => pyFormat (referencePatterns.getD (md5Int r % referencePatterns.length) "")
      (md5Int r % 100000000))]

/-- First-match evaluation of a rule list: exactly one rule fires. -/
def applyFirst : List ((String → Bool) × (String → String)) → String → String
  | [], r => r
  | rule :: rest, r => if rule.1 r then rule.2 r else applyFirst rest r

/-- C9 (amended): on a non-empty reference, a cache miss of
`anonymize_reference` computes `fakeReference`, and `fakeReference` is the
first-match evaluation of the four ordered rules: (1) titled personal-name
marker → personal-name substitution; (2) else bank-account-shaped token →
every such token replaced by the fixed placeholder; (3) else a four-digit run
→ every non-overlapping four-digit run replaced by the same hash-derived
four-digit run (not just the first, and with the same replacement for each);
(4) else a hash-selected fixed pattern filled with a hash-derived numeric
suffix. -/
theorem claim_C9_amended (ref : String) (hr : ref ≠ "") :
    (∀ st : Anonymizer, List.lookup ref st.reference_map = none →
      (anonymizeReference st ref).1 = fakeReference ref) ∧
    fakeReference ref = applyFirst refRules ref := by
  constructor
  · intro st hst
    simp [anonymizeReference, hr, hst]
  · simp only [fakeReference, refRules, applyFirst, if_true]

/-- C9, counterexample to rule (3) as stated: in `CARD 1234 AND 5678` the
hash-derived four-digit run is `2322`, and `re.sub` replaces **both** runs
with it; the claim's prediction — first run replaced, rest of the string
unchanged — does not match the output. -/
theorem claim_C9_counterexample :
    padZeros 4 (toString (md5Int "CARD 1234 AND 5678" % 10000)) = "2322" ∧
    fakeReference "CARD 1234 AND 5678" = "CARD 2322 AND 2322" ∧
    fakeReference "CARD 1234 AND 5678" ≠ "CARD 2322 AND 5678" := by
  refine ⟨?_, ?_, ?_⟩
  · set_option maxRecDepth 200000 in decide
  · set_option maxRecDepth 200000 in decide
  · set_option maxRecDepth 200000 in decide

/-- Witness for C6 at a fresh mapper and concrete values: the unseen value
grows each cache to one entry. -/
theorem claim_C6_amended_witness :
    (anonymizeAccountId (mkAnonymizer 42) "acct-1").2.account_id_map.length = 1 ∧
    (anonymizeReference (mkAnonymizer 42) "ref 1").2.reference_map.length = 1 := by
  constructor
  · have h := ((claim_C6_amended (mkAnonymizer 42) "acct-1").1).2.1 (by decide)
    simpa [mkAnonymizer] using h
  · have h := (((claim_C6_amended (mkAnonymizer 42) "ref 1").2.2.2) (by decide)).2.1 (by decide)
    simpa [mkAnonymizer] using h

/-- Witness for C9 at one concrete non-empty reference. -/
theorem claim_C9_amended_witness :
    fakeReference "hello world" = applyFirst refRules "hello world" :=
  (claim_C9_amended "hello world" (by decide)).2

/-! ## C7: amount jitter bounds -/

theorem jitterOf_bounds (s : String) (v : ℚ) (hv : 0 < v) :
    -v ≤ jitterOf s v ∧ jitterOf s v < v := by
  have hk : md5Int s % 1000 < 1000 := Nat.mod_lt _ (by norm_num)
  have hk0 : (0 : ℚ) ≤ ((md5Int s % 1000 : ℕ) : ℚ) := Nat.cast_nonneg _
  have hk9 : ((md5Int s % 1000 : ℕ) : ℚ) ≤ 999 := by exact_mod_cast Nat.le_of_lt_succ hk
  unfold jitterOf
  constructor <;> nlinarith

theorem roundHalfEven_err (q : ℚ) :
    -(1 / 2 : ℚ) ≤ (roundHalfEven q : ℚ) - q ∧ ((roundHalfEven q : ℚ) - q) ≤ 1 / 2 := by
  have h1 : (⌊q⌋ : ℚ) ≤ q := Int.floor_le q
  have h2 : q < ⌊q⌋ + 1 := Int.lt_floor_add_one q
  unfold roundHalfEven
  by_cases hc1 : q - ⌊q⌋ < 1 / 2
  · simp only [hc1, if_true]
    constructor <;> linarith
  · by_cases hc2 : (1 : ℚ) / 2 < q - ⌊q⌋
    · simp only [hc1, hc2, if_false, if_true]
      push_cast
      constructor <;> linarith
    · by_cases hc3 : ⌊q⌋ % 2 = 0 <;>
        simp only [hc1, hc2, hc3, if_false, if_true] <;> push_cast <;>
        constructor <;> linarith

/-- The rational a two-fraction-digit rendering denotes. -/
def fmt2Val (q : ℚ) : ℚ :=
  (roundHalfEven (q * 100) : ℚ) / 100

/-- C7 (amended): for a parsable amount `a ≥ 0` and variance `v > 0`,
`anonymize_amount` returns the two-fraction-digit rendering of
`a * (1 + j)` for the hash-derived jitter `j` with `-v ≤ j < v`; the
pre-rounding amount lies within `[a*(1-v), a*(1+v)]` inclusive, and the value
the returned numeral denotes lies within that interval widened by half a cent
(the rounding step can push small amounts outside the original interval, see
the counterexample). -/
theorem claim_C7_amended (s : String) (v a : ℚ)
    (hv : 0 < v) (hp : pyParseFloat s = some a) (ha : 0 ≤ a) :
    anonymizeAmount s v = fmt2 (a * (1 + jitterOf s v)) ∧
    -v ≤ jitterOf s v ∧ jitterOf s v < v ∧
    a * (1 - v) ≤ a * (1 + jitterOf s v) ∧
    a * (1 + jitterOf s v) ≤ a * (1 + v) ∧
    a * (1 - v) - 1 / 200 ≤ fmt2Val (a * (1 + jitterOf s v)) ∧
    fmt2Val (a * (1 + jitterOf s v)) ≤ a * (1 + v) + 1 / 200 := by
  obtain ⟨hj1, hj2⟩ := jitterOf_bounds s v hv
  obtain ⟨hr1, hr2⟩ := roundHalfEven_err (a * (1 + jitterOf s v) * 100)
  refine ⟨by simp [anonymizeAmount, hp], hj1, hj2, by nlinarith, by nlinarith, ?_, ?_⟩
  · unfold fmt2Val
    nlinarith
  · unfold fmt2Val
    nlinarith

/-- Witness for C7 at a concrete parsable amount. -/
theorem claim_C7_amended_witness :
    anonymizeAmount "25.50" (1 / 10) = fmt2 ((51 / 2) * (1 + jitterOf "25.50" (1 / 10))) ∧
    fmt2Val ((51 / 2) * (1 + jitterOf "25.50" (1 / 10))) ≤ (51 / 2) * (1 + 1 / 10) + 1 / 200 := by
  have hp : pyParseFloat "25.50" = some (51 / 2) := by
    simp [pyParseFloat, digitsVal, isDigit09]
    norm_num
  have h := claim_C7_amended "25.50" (1 / 10) (51 / 2) (by norm_num) hp (by norm_num)
  exact ⟨h.1, h.2.2.2.2.2.2⟩

set_option maxRecDepth 400000 in
/-- C7, counterexample to the inclusive-interval claim as stated: for the
parsable input `0.014` with the default variance `0.1`, the returned amount
is `0.01`, whose value is strictly below `0.014 * (1 - 0.1) = 0.0126` — the
two-decimal rounding leaves the claimed interval. -/
theorem claim_C7_counterexample :
    anonymizeAmount "0.014" (1 / 10) = "0.01" ∧
    pyParseFloat "0.014" = some (7 / 500) ∧
    pyParseFloat "0.01" = some (1 / 100) ∧
    ((1 : ℚ) / 100) < (7 / 500) * (1 - 1 / 10) := by
  have hp : pyParseFloat "0.014" = some (7 / 500) := by
    simp [pyParseFloat, digitsVal, isDigit09]
    norm_num
  have hk : md5Int "0.014" % 1000 = 390 := by decide
  have hj : jitterOf "0.014" (1 / 10) = -(11 / 500) := by
    rw [jitterOf, hk]
    norm_num
  have hval : (7 / 500 : ℚ) * (1 + jitterOf "0.014" (1 / 10)) = 3423 / 250000 := by
    rw [hj]
    norm_num
  have hfl : ⌊(3423 / 250000 : ℚ) * 100⌋ = 1 := by
    rw [Int.floor_eq_iff]
    norm_num
  have hround : roundHalfEven ((3423 / 250000 : ℚ) * 100) = 1 := by
    rw [roundHalfEven, hfl]
    norm_num
  have hfmt : fmt2 ((3423 / 250000 : ℚ)) = "0.01" := by
    rw [fmt2, hround]
    have hneg : ¬((3423 / 250000 : ℚ) < 0) := by norm_num
    rw [if_neg hneg]
    decide
  refine ⟨?_, hp, ?_, by norm_num⟩
  · rw [anonymizeAmount, hp]
    show fmt2 ((7 / 500 : ℚ) * (1 + jitterOf "0.014" (1 / 10))) = "0.01"
    rw [hval, hfmt]
  · simp [pyParseFloat, digitsVal, isDigit09]
    norm_num

/-! ## C1: determinism of the full anonymization modulo the regenerated
correlation identifiers -/

/-- Blank out the values of the two volatile header fields, keeping their
presence. -/
def eraseVolatile (e : Envelope) : Envelope :=
  { e with requisitionId := e.requisitionId.map (fun _ => ""),
           traceId := e.traceId.map (fun _ => "") }

/-- Blank out the volatile header fields of a whole run's output. -/
def eraseRun (r : Except String (List Envelope × Anonymizer × Nat)) :
    Except String (List Envelope × Anonymizer × Nat) :=
  r.map (fun p => (p.1.map eraseVolatile, p.2))

theorem anonymizeTransactionFile_entropy (st : Anonymizer) (f g : Nat → String) (n : Nat)
    (env : Envelope) :
    (anonymizeTransactionFile st f n env).map (fun p => (eraseVolatile p.1, p.2)) =
    (anonymizeTransactionFile st g n env).map (fun p => (eraseVolatile p.1, p.2)) := by
  unfold anonymizeTransactionFile
  cases hp : anonymizeTxList (anonymizeAccountId st env.accountId).2 env.pending with
  | error err => simp [hp]
  | ok p =>
      obtain ⟨pend, st2⟩ := p
      cases hb : anonymizeTxList st2 env.booked with
      | error err => simp [hp, hb]
      | ok b =>
          obtain ⟨book, st3⟩ := b
          cases env.requisitionId <;> cases env.traceId <;>
            simp [hp, hb, eraseVolatile, Except.map]

theorem anonymizeCorpus_entropy (envs : List Envelope) :
    ∀ (st : Anonymizer) (n : Nat) (f g : Nat → String),
      eraseRun (anonymizeCorpus st f n envs) = eraseRun (anonymizeCorpus st g n envs) := by
  induction envs with
  | nil => intro st n f g; rfl
  | cons e es ih =>
      intro st n f g
      have hf := anonymizeTransactionFile_entropy st f g n e
      cases h1 : anonymizeTransactionFile st f n e with
      | error err =>
          cases h2 : anonymizeTransactionFile st g n e with
          | error err2 =>
              rw [h1, h2] at hf
              simp [Except.map] at hf
              subst hf
              simp [anonymizeCorpus, h1, h2]
          | ok p2 =>
              rw [h1, h2] at hf
              simp [Except.map] at hf
      | ok p =>
          cases h2 : anonymizeTransactionFile st g n e with
          | error err2 =>
              rw [h1, h2] at hf
              simp [Except.map] at hf
          | ok p2 =>
              rw [h1, h2] at hf
              simp only [Except.map, Except.ok.injEq] at hf
              obtain ⟨e1, st1, n1⟩ := p
              obtain ⟨e2, st2, n2⟩ := p2
              simp only [Prod.mk.injEq] at hf
              obtain ⟨henv, hst, hn⟩ := hf
              subst hst
              subst hn
              have ihc := ih st1 n1 f g
              cases hc1 : anonymizeCorpus st1 f n1 es with
              | error cerr =>
                  cases hc2 : anonymizeCorpus st1 g n1 es with
                  | error cerr2 =>
                      rw [hc1, hc2] at ihc
                      simp [eraseRun, Except.map] at ihc
                      subst ihc
                      simp [anonymizeCorpus, h1, h2, hc1, hc2]
                  | ok q2 =>
                      rw [hc1, hc2] at ihc
                      simp [eraseRun, Except.map] at ihc
              | ok q =>
                  cases hc2 : anonymizeCorpus st1 g n1 es with
                  | error cerr2 =>
                      rw [hc1, hc2] at ihc
                      simp [eraseRun, Except.map] at ihc
                  | ok q2 =>
                      rw [hc1, hc2] at ihc
                      simp only [eraseRun, Except.map, Except.ok.injEq] at ihc
                      obtain ⟨es1, cst, cn⟩ := q
                      obtain ⟨es2, cst2, cn2⟩ := q2
                      simp only [Prod.mk.injEq] at ihc
                      obtain ⟨htails, hcst, hcn⟩ := ihc
                      simp [anonymizeCorpus, h1, h2, hc1, hc2, eraseRun, Except.map, henv,
                        htails, hcst, hcn]
      
/-- C1 (amended): for a fixed seed and the same corpus, two runs of the full
anonymization from a freshly constructed mapper produce identical output —
same error or same anonymized envelopes, mapper state and draw count — in
every field of every envelope **except** the `requisitionId` and `traceId`
metadata fields, which are regenerated from `uuid.uuid4()` OS entropy
(modelled as the streams `f` and `g`) that `random.seed` does not control;
their presence, but not their values, is preserved. -/
theorem claim_C1_amended (envs : List Envelope) (seed : Nat) (f g : Nat → String) :
    eraseRun (anonymizeCorpus (mkAnonymizer seed) f 0 envs) =
    eraseRun (anonymizeCorpus (mkAnonymizer seed) g 0 envs) :=
  anonymizeCorpus_entropy envs (mkAnonymizer seed) 0 f g

deriving instance DecidableEq for Except

/-- One entropy stream a run might observe. -/
def entropyA : Nat → String := fun _ => "00000000-0000-4000-8000-000000000001"

/-- A different entropy stream for the second run. -/
def entropyB : Nat → String := fun _ => "00000000-0000-4000-8000-000000000002"

set_option maxRecDepth 400000 in
/-- C1, counterexample to the claim as stated: on an envelope that carries a
`traceId`, two fresh same-seed runs that draw different `uuid4` entropy
produce different outputs — the traceId value is not reproduced. -/
theorem claim_C1_counterexample :
    anonymizeCorpus (mkAnonymizer 42) entropyA 0
        [⟨"acct", "t", none, some "trace", [], []⟩] ≠
      anonymizeCorpus (mkAnonymizer 42) entropyB 0
        [⟨"acct", "t", none, some "trace", [], []⟩] := by
  decide

/-! ## C4: the key deriver refines its specification -/

/-- Is `transactionAmount`, when present, a mapping? On every data-model
record this is true; when it is false the Python key derivation raises. -/
def amountIsMapping (tx : TxRecord) : Bool :=
  match List.lookup "transactionAmount" tx with
  | some (.str _) => false
  | _ => true

/-- The identifying tokens of a record as the specification words them: one
`name:value` token per present identifying field, in the priority order
transaction identifier, amount with currency, booking date, creditor name. -/
def tokensOf (tx : TxRecord) : List String :=
  (match List.lookup "transactionId" tx with
   | some v => ["id:" ++ pyStr v]
   | none => []) ++
  (match List.lookup "transactionAmount" tx with
   | some (.obj l) => ["amount:" ++ dictGetD l "amount" "" ++ ":" ++ dictGetD l "currency" ""]
   | _ => []) ++
  (match List.lookup "bookingDate" tx with
   | some v => ["date:" ++ pyStr v]
   | none => []) ++
  (match List.lookup "creditorName" tx with
   | some v => ["creditor:" ++ pyStr v]
   | none => [])

/-- The key contract as the specification words it: the separator-joined
identifying tokens, or, when no identifying field is present, a content hash
over the canonically sorted record. -/
def keySpec (tx : TxRecord) : String :=
  match tokensOf tx with
  | [] => "hash:" ++ md5Hex (jsonDumps tx)
  | parts => pyJoin "|" parts

theorem createTransactionKey_eq_keySpec (tx : TxRecord) (h : amountIsMapping tx = true) :
    createTransactionKey tx = .ok (keySpec tx) := by
  rw [amountIsMapping] at h
  cases h2 : List.lookup "transactionAmount" tx with
  | none =>
      cases h1 : List.lookup "transactionId" tx <;>
        cases h3 : List.lookup "bookingDate" tx <;>
        cases h4 : List.lookup "creditorName" tx <;>
        simp [createTransactionKey, amountToken, keySpec, tokensOf, h1, h2, h3, h4, pyJoin]
  | some v =>
      cases v with
      | str s => rw [h2] at h; simp at h
      | obj l =>
          cases h1 : List.lookup "transactionId" tx <;>
            cases h3 : List.lookup "bookingDate" tx <;>
            cases h4 : List.lookup "creditorName" tx <;>
            simp [createTransactionKey, amountToken, keySpec, tokensOf, h1, h2, h3, h4, pyJoin]

theorem lookup_eq_of_perm {β : Type} (k : String) :
    ∀ {l1 l2 : List (String × β)}, l1.Perm l2 → (l1.map Prod.fst).Nodup →
      List.lookup k l1 = List.lookup k l2 := by
  intro l1 l2 hp
  induction hp with
  | nil => intro _; rfl
  | cons x hp ih =>
      intro hnd
      obtain ⟨a, b⟩ := x
      simp only [List.map_cons, List.nodup_cons] at hnd
      cases hka : (k == a) <;> simp [List.lookup_cons, hka, ih hnd.2]
  | swap x y l =>
      intro hnd
      obtain ⟨a, b⟩ := x
      obtain ⟨c, d⟩ := y
      simp only [List.map_cons, List.nodup_cons, List.mem_cons] at hnd
      have hac : ¬(c = a) := fun hh => hnd.1 (Or.inl hh)
      cases hka : (k == a) <;> cases hkc : (k == c) <;>
        simp [List.lookup_cons, hka, hkc]
      exact absurd ((eq_of_beq hkc).symm.trans (eq_of_beq hka)) hac
  | trans p1 p2 ih1 ih2 =>
      intro hnd
      exact (ih1 hnd).trans (ih2 ((p1.map Prod.fst).nodup hnd))

theorem sortByKey_eq_of_perm {β : Type} {l1 l2 : List (String × β)}
    (hp : l1.Perm l2) (hnd : (l1.map Prod.fst).Nodup) :
    sortByKey l1 = sortByKey l2 := by
  haveI : IsAntisymm (String × β) (fun p q => p.1 < q.1) :=
    ⟨fun a b h1 h2 => absurd (lt_trans h1 h2) (lt_irrefl _)⟩
  have htr : ∀ (a b c : String × β),
      decide (a.1 ≤ b.1) = true → decide (b.1 ≤ c.1) = true → decide (a.1 ≤ c.1) = true := by
    intro a b c h1 h2
    simp only [decide_eq_true_eq] at *
    exact le_trans h1 h2
  have hto : ∀ (a b : String × β), (decide (a.1 ≤ b.1) || decide (b.1 ≤ a.1)) = true := by
    intro a b
    simp only [Bool.or_eq_true, decide_eq_true_eq]
    exact le_total a.1 b.1
  have key_sorted : ∀ (l : List (String × β)), (l.map Prod.fst).Nodup →
      List.Sorted (fun p q : String × β => p.1 < q.1) (sortByKey l) := by
    intro l hl
    have hs := List.sorted_mergeSort htr hto l
    have hperm : (sortByKey l).Perm l := List.mergeSort_perm l _
    have hndm : ((sortByKey l).map Prod.fst).Nodup := ((hperm.map Prod.fst).symm.nodup hl)
    have hne : List.Pairwise (fun p q : String × β => p.1 ≠ q.1) (sortByKey l) :=
      (List.pairwise_map).mp hndm
    have hle : List.Pairwise (fun p q : String × β => p.1 ≤ q.1) (sortByKey l) := by
      refine hs.imp ?_
      intro a b hab
      simpa using hab
    exact (hle.and hne).imp (fun hab => lt_of_le_of_ne hab.1 hab.2)
  have h2nd : (l2.map Prod.fst).Nodup := (hp.map Prod.fst).nodup hnd
  exact List.eq_of_perm_of_sorted
    (((List.mergeSort_perm l1 _).trans hp).trans (List.mergeSort_perm l2 _).symm)
    (key_sorted l1 hnd) (key_sorted l2 h2nd)

theorem jsonDumps_eq_of_perm {l1 l2 : TxRecord}
    (hp : l1.Perm l2) (hnd : (l1.map Prod.fst).Nodup) :
    jsonDumps l1 = jsonDumps l2 := by
  unfold jsonDumps
  rw [sortByKey_eq_of_perm hp hnd]

theorem tokensOf_eq_of_perm {l1 l2 : TxRecord}
    (hp : l1.Perm l2) (hnd : (l1.map Prod.fst).Nodup) :
    tokensOf l1 = tokensOf l2 := by
  unfold tokensOf
  rw [lookup_eq_of_perm "transactionId" hp hnd, lookup_eq_of_perm "transactionAmount" hp hnd,
    lookup_eq_of_perm "bookingDate" hp hnd, lookup_eq_of_perm "creditorName" hp hnd]

theorem keySpec_eq_of_perm {l1 l2 : TxRecord}
    (hp : l1.Perm l2) (hnd : (l1.map Prod.fst).Nodup) :
    keySpec l1 = keySpec l2 := by
  unfold keySpec
  rw [tokensOf_eq_of_perm hp hnd, jsonDumps_eq_of_perm hp hnd]

/-- C4: on every data-model record (`transactionAmount`, when present, a
mapping) the key derivation returns a key without failing, and that key is
exactly the specification's contract `keySpec`: the `|`-joined `name:value`
tokens of the present identifying fields, inspected in the priority order
transaction identifier, amount with currency, booking date, creditor name;
when no identifying field is present, an MD5 content hash of the
canonically key-sorted serialization of the whole record. It is furthermore
insensitive to the input's field order: any permutation of a duplicate-free
record yields the same key. -/
theorem claim_C4 (tx : TxRecord) (h : amountIsMapping tx = true) :
    createTransactionKey tx = .ok (keySpec tx) ∧
    (∀ tx2, tx.Perm tx2 → (tx.map Prod.fst).Nodup →
      createTransactionKey tx2 = .ok (keySpec tx)) := by
  refine ⟨createTransactionKey_eq_keySpec tx h, ?_⟩
  intro tx2 hp hnd
  have h2 : amountIsMapping tx2 = true := by
    rw [amountIsMapping, ← lookup_eq_of_perm "transactionAmount" hp hnd, ← amountIsMapping]
    exact h
  rw [createTransactionKey_eq_keySpec tx2 h2, keySpec_eq_of_perm hp hnd]

set_option maxRecDepth 400000 in
/-- Witness for C4: a concrete record with identifying fields, and a
concrete record without any (hash fallback) evaluated also on its
reversed field order. -/
theorem claim_C4_witness :
    createTransactionKey
        [("bookingDate", JVal.str "2024-01-02"), ("creditorName", JVal.str "TESCO")] =
      .ok (keySpec [("bookingDate", JVal.str "2024-01-02"), ("creditorName", JVal.str "TESCO")]) ∧
    createTransactionKey [("x", JVal.str "1"), ("a", JVal.str "2")] =
      .ok (keySpec [("a", JVal.str "2"), ("x", JVal.str "1")]) := by
  constructor
  · exact (claim_C4 [("bookingDate", JVal.str "2024-01-02"), ("creditorName", JVal.str "TESCO")]
      (by decide)).1
  · exact (claim_C4 [("a", JVal.str "2"), ("x", JVal.str "1")] (by decide)).2
      [("x", JVal.str "1"), ("a", JVal.str "2")] (by decide) (by decide)

/-! ## C5: key collisions -/

/-- No `|` separator character in the string. -/
def noPipe (s : String) : Bool :=
  s.data.all (fun c => !(c == '|'))

/-- No `:` character in the string. -/
def noColon (s : String) : Bool :=
  s.data.all (fun c => !(c == ':'))

/-- The identifying content of a record: which identifying fields are present
and with which values, exactly as the key derivation reads them. -/
def identContent (tx : TxRecord) :
    Option String × Option (String × String) × Option String × Option String :=
  ((List.lookup "transactionId" tx).map pyStr,
   (match List.lookup "transactionAmount" tx with
    | some (.obj l) => some (dictGetD l "amount" "", dictGetD l "currency" "")
    | _ => none),
   (List.lookup "bookingDate" tx).map pyStr,
   (List.lookup "creditorName" tx).map pyStr)

/-- Does the record carry at least one identifying field (no hash fallback)? -/
def hasIdentifying (tx : TxRecord) : Bool :=
  !(tokensOf tx).isEmpty

/-- All extracted identifying values are free of the separator `|`, and the
amount value is free of `:` (the in-token separator of the amount:currency
pair). -/
def delimFree (tx : TxRecord) : Bool :=
  (match List.lookup "transactionId" tx with
   | some v => noPipe (pyStr v)
   | none => true) &&
  (match List.lookup "transactionAmount" tx with
   | some (.obj l) =>
       noPipe (dictGetD l "amount" "") && noColon (dictGetD l "amount" "") &&
         noPipe (dictGetD l "currency" "")
   | _ => true) &&
  (match List.lookup "bookingDate" tx with
   | some v => noPipe (pyStr v)
   | none => true) &&
  (match List.lookup "creditorName" tx with
   | some v => noPipe (pyStr v)
   | none => true)

/-- First token carrying the given tag, with the tag stripped. -/
def tagValue (tokens : List String) (tag : String) : Option String :=
  (tokens.filter (fun t => listStartsWith tag.data t.data)).head?.map
    (fun t => String.mk (t.data.drop tag.data.length))

/-- Recover the amount and currency from an `amount:` token. -/
def decAmtToken (t : String) : String × String :=
  let rest := (t.data.drop 7)
  (String.mk (rest.takeWhile (fun ch => !(ch == ':'))),
   String.mk ((rest.dropWhile (fun ch => !(ch == ':'))).drop 1))

/-- Decode a key's token list back into identifying content. -/
def decodeTokens (tokens : List String) :
    Option String × Option (String × String) × Option String × Option String :=
  (tagValue tokens "id:",
   (tokens.filter (fun t => listStartsWith "amount:".data t.data)).head?.map decAmtToken,
   tagValue tokens "date:",
   tagValue tokens "creditor:")

theorem strMk_data (s : String) : String.mk s.data = s := rfl

theorem swc_id_id (v : List Char) :
    listStartsWith ['i', 'd', ':'] ('i' :: 'd' :: ':' :: v) = true := rfl

theorem swc_id_amt (v : List Char) :
    listStartsWith ['i', 'd', ':'] ('a' :: 'm' :: 'o' :: 'u' :: 'n' :: 't' :: ':' :: v) = false := rfl

theorem swc_id_date (v : List Char) :
    listStartsWith ['i', 'd', ':'] ('d' :: 'a' :: 't' :: 'e' :: ':' :: v) = false := rfl

theorem swc_id_cred (v : List Char) :
    listStartsWith ['i', 'd', ':'] ('c' :: 'r' :: 'e' :: 'd' :: 'i' :: 't' :: 'o' :: 'r' :: ':' :: v) = false := rfl

theorem swc_amt_id (v : List Char) :
    listStartsWith ['a', 'm', 'o', 'u', 'n', 't', ':'] ('i' :: 'd' :: ':' :: v) = false := rfl

theorem swc_amt_amt (v : List Char) :
    listStartsWith ['a', 'm', 'o', 'u', 'n', 't', ':'] ('a' :: 'm' :: 'o' :: 'u' :: 'n' :: 't' :: ':' :: v) = true := rfl

theorem swc_amt_date (v : List Char) :
    listStartsWith ['a', 'm', 'o', 'u', 'n', 't', ':'] ('d' :: 'a' :: 't' :: 'e' :: ':' :: v) = false := rfl

theorem swc_amt_cred (v : List Char) :
    listStartsWith ['a', 'm', 'o', 'u', 'n', 't', ':'] ('c' :: 'r' :: 'e' :: 'd' :: 'i' :: 't' :: 'o' :: 'r' :: ':' :: v) = false := rfl

theorem swc_date_id (v : List Char) :
    listStartsWith ['d', 'a', 't', 'e', ':'] ('i' :: 'd' :: ':' :: v) = false := rfl

theorem swc_date_amt (v : List Char) :
    listStartsWith ['d', 'a', 't', 'e', ':'] ('a' :: 'm' :: 'o' :: 'u' :: 'n' :: 't' :: ':' :: v) = false := rfl

theorem swc_date_date (v : List Char) :
    listStartsWith ['d', 'a', 't', 'e', ':'] ('d' :: 'a' :: 't' :: 'e' :: ':' :: v) = true := rfl

theorem swc_date_cred (v : List Char) :
    listStartsWith ['d', 'a', 't', 'e', ':'] ('c' :: 'r' :: 'e' :: 'd' :: 'i' :: 't' :: 'o' :: 'r' :: ':' :: v) = false := rfl

theorem swc_cred_id (v : List Char) :
    listStartsWith ['c', 'r', 'e', 'd', 'i', 't', 'o', 'r', ':'] ('i' :: 'd' :: ':' :: v) = false := rfl

theorem swc_cred_amt (v : List Char) :
    listStartsWith ['c', 'r', 'e', 'd', 'i', 't', 'o', 'r', ':'] ('a' :: 'm' :: 'o' :: 'u' :: 'n' :: 't' :: ':' :: v) = false := rfl

theorem swc_cred_date (v : List Char) :
    listStartsWith ['c', 'r', 'e', 'd', 'i', 't', 'o', 'r', ':'] ('d' :: 'a' :: 't' :: 'e' :: ':' :: v) = false := rfl

theorem swc_cred_cred (v : List Char) :
    listStartsWith ['c', 'r', 'e', 'd', 'i', 't', 'o', 'r', ':'] ('c' :: 'r' :: 'e' :: 'd' :: 'i' :: 't' :: 'o' :: 'r' :: ':' :: v) = true := rfl

theorem takeWhile_noColon (a c : List Char) (h : a.all (fun ch => !(ch == ':')) = true) :
    (a ++ ':' :: c).takeWhile (fun ch => !(ch == ':')) = a := by
  induction a with
  | nil => simp [List.takeWhile]
  | cons x xs ih =>
      simp only [List.all_cons, Bool.and_eq_true] at h
      simp [List.takeWhile_cons, h.1, ih h.2]

theorem dropWhile_noColon (a c : List Char) (h : a.all (fun ch => !(ch == ':')) = true) :
    (a ++ ':' :: c).dropWhile (fun ch => !(ch == ':')) = ':' :: c := by
  induction a with
  | nil => simp [List.dropWhile]
  | cons x xs ih =>
      simp only [List.all_cons, Bool.and_eq_true] at h
      simp [List.dropWhile_cons, h.1, ih h.2]

theorem decAmtToken_eq (a c : String) (h : noColon a = true) :
    decAmtToken ("amount:" ++ a ++ ":" ++ c) = (a, c) := by
  have hdata : ("amount:" ++ a ++ ":" ++ c).data = "amount:".data ++ (a.data ++ ':' :: c.data) := by
    simp [String.data_append, List.append_assoc]
  have hdrop : ("amount:" ++ a ++ ":" ++ c).data.drop 7 = a.data ++ ':' :: c.data := by
    rw [hdata]
    rfl
  unfold decAmtToken
  simp only [hdrop]
  rw [takeWhile_noColon _ _ h, dropWhile_noColon _ _ h]
  simp

theorem decodeTokens_tokensOf (tx : TxRecord) (hd : delimFree tx = true) :
    decodeTokens (tokensOf tx) = identContent tx := by
  rw [delimFree] at hd
  cases h2 : List.lookup "transactionAmount" tx with
  | none =>
      cases h1 : List.lookup "transactionId" tx <;>
        cases h3 : List.lookup "bookingDate" tx <;>
        cases h4 : List.lookup "creditorName" tx <;>
        simp [tokensOf, decodeTokens, identContent, tagValue, h1, h2, h3, h4,
          swc_id_id, swc_id_amt, swc_id_date, swc_id_cred,
          swc_amt_id, swc_amt_amt, swc_amt_date, swc_amt_cred,
          swc_date_id, swc_date_amt, swc_date_date, swc_date_cred,
          swc_cred_id, swc_cred_amt, swc_cred_date, swc_cred_cred,
          strMk_data]
  | some v =>
      cases v with
      | str s =>
          cases h1 : List.lookup "transactionId" tx <;>
            cases h3 : List.lookup "bookingDate" tx <;>
            cases h4 : List.lookup "creditorName" tx <;>
            simp [tokensOf, decodeTokens, identContent, tagValue, h1, h2, h3, h4,
              swc_id_id, swc_id_amt, swc_id_date, swc_id_cred,
              swc_amt_id, swc_amt_amt, swc_amt_date, swc_amt_cred,
              swc_date_id, swc_date_amt, swc_date_date, swc_date_cred,
              swc_cred_id, swc_cred_amt, swc_cred_date, swc_cred_cred,
              strMk_data]
      | obj l =>
          simp only [h2, Bool.and_eq_true] at hd
          have hcol : noColon (dictGetD l "amount" "") = true := hd.1.1.2.1.2
          cases h1 : List.lookup "transactionId" tx <;>
            cases h3 : List.lookup "bookingDate" tx <;>
            cases h4 : List.lookup "creditorName" tx <;>
            simp [tokensOf, decodeTokens, identContent, tagValue, h1, h2, h3, h4,
              swc_id_id, swc_id_amt, swc_id_date, swc_id_cred,
              swc_amt_id, swc_amt_amt, swc_amt_date, swc_amt_cred,
              swc_date_id, swc_date_amt, swc_date_date, swc_date_cred,
              swc_cred_id, swc_cred_amt, swc_cred_date, swc_cred_cred,
              strMk_data, decAmtToken_eq _ _ hcol]

/-- Split a character list at every `|`. -/
def splitPipe : List Char → List (List Char)
  | [] => [[]]
  | c :: rest =>
      if c == '|' then [] :: splitPipe rest
      else
        match splitPipe rest with
        | [] => [[c]]
        | g :: gs => (c :: g) :: gs

theorem splitPipe_nopipe (l : List Char) (h : l.all (fun c => !(c == '|')) = true) :
    splitPipe l = [l] := by
  induction l with
  | nil => rfl
  | cons c rest ih =>
      simp only [List.all_cons, Bool.and_eq_true] at h
      have h1 : (c == '|') = false := by simpa using h.1
      simp [splitPipe, h1, ih h.2]

theorem splitPipe_append (x r : List Char) (h : x.all (fun c => !(c == '|')) = true) :
    splitPipe (x ++ '|' :: r) = x :: splitPipe r := by
  induction x with
  | nil => simp [splitPipe]
  | cons c cs ih =>
      simp only [List.all_cons, Bool.and_eq_true] at h
      have h1 : (c == '|') = false := by simpa using h.1
      simp [splitPipe, h1, ih h.2]

theorem pyJoin_data (ts : List String) (hne : ts ≠ []) (h : ts.all noPipe = true) :
    splitPipe (pyJoin "|" ts).data = ts.map String.data := by
  induction ts with
  | nil => exact absurd rfl hne
  | cons t rest ih =>
      cases rest with
      | nil =>
          simp only [List.all_cons, Bool.and_eq_true] at h
          show splitPipe t.data = [t.data]
          exact splitPipe_nopipe t.data h.1
      | cons u us =>
          simp only [List.all_cons, Bool.and_eq_true] at h
          have hdata : (t ++ "|" ++ pyJoin "|" (u :: us)).data =
              t.data ++ '|' :: (pyJoin "|" (u :: us)).data := by
            simp [String.data_append]
          show splitPipe (t ++ "|" ++ pyJoin "|" (u :: us)).data = t.data :: (u :: us).map String.data
          rw [hdata, splitPipe_append _ _ h.1,
            ih (by simp) (by simp [List.all_cons, h.2.1, h.2.2])]

theorem pyJoin_inj {ts1 ts2 : List String} (h1 : ts1 ≠ []) (h2 : ts2 ≠ [])
    (hp1 : ts1.all noPipe = true) (hp2 : ts2.all noPipe = true)
    (he : pyJoin "|" ts1 = pyJoin "|" ts2) : ts1 = ts2 := by
  have hs : ts1.map String.data = ts2.map String.data := by
    rw [← pyJoin_data ts1 h1 hp1, ← pyJoin_data ts2 h2 hp2, he]
  have hinj : Function.Injective String.data := by
    intro a b hh
    obtain ⟨da⟩ := a
    obtain ⟨db⟩ := b
    exact congrArg String.mk hh
  exact List.map_injective_iff.mpr hinj hs

theorem noPipe_append (s t : String) : noPipe (s ++ t) = (noPipe s && noPipe t) := by
  simp [noPipe, String.data_append, List.all_append]

theorem noPipe_tag_id : noPipe "id:" = true := rfl

theorem noPipe_tag_amt : noPipe "amount:" = true := rfl

theorem noPipe_tag_colon : noPipe ":" = true := rfl

theorem noPipe_tag_date : noPipe "date:" = true := rfl

theorem noPipe_tag_cred : noPipe "creditor:" = true := rfl

theorem tokensOf_noPipe (tx : TxRecord) (hd : delimFree tx = true) :
    (tokensOf tx).all noPipe = true := by
  rw [delimFree] at hd
  cases h2 : List.lookup "transactionAmount" tx with
  | none =>
      cases h1 : List.lookup "transactionId" tx <;>
        cases h3 : List.lookup "bookingDate" tx <;>
        cases h4 : List.lookup "creditorName" tx <;>
        simp only [h1, h2, h3, h4, Bool.and_eq_true] at hd <;>
        simp [tokensOf, h1, h2, h3, h4, List.all_append, noPipe_append, hd,
          noPipe_tag_id, noPipe_tag_amt, noPipe_tag_colon, noPipe_tag_date, noPipe_tag_cred]
  | some v =>
      cases v with
      | str s =>
          cases h1 : List.lookup "transactionId" tx <;>
            cases h3 : List.lookup "bookingDate" tx <;>
            cases h4 : List.lookup "creditorName" tx <;>
            simp only [h1, h2, h3, h4, Bool.and_eq_true] at hd <;>
            simp [tokensOf, h1, h2, h3, h4, List.all_append, noPipe_append, hd,
          noPipe_tag_id, noPipe_tag_amt, noPipe_tag_colon, noPipe_tag_date, noPipe_tag_cred]
      | obj l =>
          cases h1 : List.lookup "transactionId" tx <;>
            cases h3 : List.lookup "bookingDate" tx <;>
            cases h4 : List.lookup "creditorName" tx <;>
            simp only [h1, h2, h3, h4, Bool.and_eq_true] at hd <;>
            simp [tokensOf, h1, h2, h3, h4, List.all_append, noPipe_append, hd,
          noPipe_tag_id, noPipe_tag_amt, noPipe_tag_colon, noPipe_tag_date, noPipe_tag_cred]

/-- C5 (amended): two records of the data model with at least one identifying
field each, whose identifying values are free of the key's separator
characters (no `|` anywhere, no `:` in the amount), receive different keys
whenever their identifying content differs. (Without the separator
restriction the claim fails — values containing the separators can make
structurally distinct records collide exactly, not merely by hash
coincidence; see the counterexample.) -/
theorem claim_C5_amended (tx1 tx2 : TxRecord)
    (ha1 : amountIsMapping tx1 = true) (ha2 : amountIsMapping tx2 = true)
    (hd1 : delimFree tx1 = true) (hd2 : delimFree tx2 = true)
    (hi1 : hasIdentifying tx1 = true) (hi2 : hasIdentifying tx2 = true)
    (hne : identContent tx1 ≠ identContent tx2) :
    createTransactionKey tx1 ≠ createTransactionKey tx2 := by
  intro heq
  rw [createTransactionKey_eq_keySpec tx1 ha1, createTransactionKey_eq_keySpec tx2 ha2] at heq
  simp only [Except.ok.injEq] at heq
  have hne1 : tokensOf tx1 ≠ [] := by
    intro hc
    rw [hasIdentifying, hc] at hi1
    simp at hi1
  have hne2 : tokensOf tx2 ≠ [] := by
    intro hc
    rw [hasIdentifying, hc] at hi2
    simp at hi2
  have hk1 : keySpec tx1 = pyJoin "|" (tokensOf tx1) := by
    cases hm : tokensOf tx1 with
    | nil => exact absurd hm hne1
    | cons a as => simp [keySpec, hm]
  have hk2 : keySpec tx2 = pyJoin "|" (tokensOf tx2) := by
    cases hm : tokensOf tx2 with
    | nil => exact absurd hm hne2
    | cons a as => simp [keySpec, hm]
  rw [hk1, hk2] at heq
  have htok := pyJoin_inj hne1 hne2 (tokensOf_noPipe tx1 hd1) (tokensOf_noPipe tx2 hd2) heq
  apply hne
  rw [← decodeTokens_tokensOf tx1 hd1, ← decodeTokens_tokensOf tx2 hd2, htok]

/-- Witness for C5 at two concrete separator-free records differing in
content. -/
theorem claim_C5_amended_witness :
    createTransactionKey [("transactionId", JVal.str "A")] ≠
      createTransactionKey [("transactionId", JVal.str "B")] :=
  claim_C5_amended [("transactionId", JVal.str "A")] [("transactionId", JVal.str "B")]
    (by decide) (by decide) (by decide) (by decide) (by decide) (by decide) (by decide)

/-- C5, counterexample to the claim as stated: a record whose transaction
identifier embeds the separator collides exactly with a structurally distinct
record (different identifying content, neither in hash fallback) — not a hash
coincidence. -/
theorem claim_C5_counterexample :
    identContent [("transactionId", JVal.str "a|amount:1:GBP")] ≠
      identContent
        [("transactionId", JVal.str "a"),
         ("transactionAmount", JVal.obj [("amount", "1"), ("currency", "GBP")])] ∧
    hasIdentifying [("transactionId", JVal.str "a|amount:1:GBP")] = true ∧
    hasIdentifying
      [("transactionId", JVal.str "a"),
       ("transactionAmount", JVal.obj [("amount", "1"), ("currency", "GBP")])] = true ∧
    createTransactionKey [("transactionId", JVal.str "a|amount:1:GBP")] =
      createTransactionKey
        [("transactionId", JVal.str "a"),
         ("transactionAmount", JVal.obj [("amount", "1"), ("currency", "GBP")])] := by
  refine ⟨by decide, by decide, by decide, by decide⟩

/-! ## C2 and C3: relationship analyzer machinery -/

/-- Append further values to an optional group. -/
def optAppend {β : Type} : Option (List β) → List β → Option (List β)
  | none, [] => none
  | none, fs => some fs
  | some vs, fs => some (vs ++ fs)

theorem optAppend_snoc {β : Type} (o : Option (List β)) (v : β) (fs : List β) :
    optAppend (optAppend o [v]) fs = optAppend o (v :: fs) := by
  cases o with
  | none =>
      show optAppend (some [v]) fs = some (v :: fs)
      cases fs <;> simp [optAppend]
  | some vs =>
      show optAppend (some (vs ++ [v])) fs = some (vs ++ v :: fs)
      cases fs <;> simp [optAppend]

/-- Fold a pair list into insertion-ordered groups. -/
def groupPairs {β : Type} (items : List (String × β))
    (acc : List (String × List β)) : List (String × List β) :=
  items.foldl (fun a kv => addGroup kv.1 kv.2 a) acc

theorem lookup_addGroup {β : Type} (k k' : String) (v : β) (acc : List (String × List β)) :
    List.lookup k (addGroup k' v acc) =
      if k == k' then
        match List.lookup k acc with
        | none => some [v]
        | some vs => some (vs ++ [v])
      else List.lookup k acc := by
  induction acc with
  | nil =>
      cases hkk : (k == k') with
      | true =>
          have : k = k' := eq_of_beq hkk
          subst this
          simp [addGroup, List.lookup_cons]
      | false => simp [addGroup, List.lookup_cons, hkk]
  | cons p rest ih =>
      obtain ⟨pk, pv⟩ := p
      by_cases hpk : pk = k'
      · subst hpk
        cases hkk : (k == pk) with
        | true =>
            have : k = pk := eq_of_beq hkk
            subst this
            simp [addGroup, List.lookup_cons]
        | false => simp [addGroup, List.lookup_cons, hkk]
      · have hb : (pk == k') = false := beq_eq_false_iff_ne.mpr hpk
        cases hkk : (k == pk) with
        | true =>
            have hk : k = pk := eq_of_beq hkk
            subst hk
            have hkk' : (k == k') = false := beq_eq_false_iff_ne.mpr hpk
            simp [addGroup, hb, List.lookup_cons, hkk']
        | false => simp [addGroup, hb, List.lookup_cons, hkk, ih]

theorem lookup_groupPairs {β : Type} (k : String) (items : List (String × β)) :
    ∀ acc, List.lookup k (groupPairs items acc) =
      optAppend (List.lookup k acc)
        ((items.filter (fun p => p.1 == k)).map Prod.snd) := by
  induction items with
  | nil =>
      intro acc
      show List.lookup k acc = optAppend (List.lookup k acc) []
      cases List.lookup k acc <;> simp [optAppend]
  | cons kv rest ih =>
      intro acc
      show List.lookup k (groupPairs rest (addGroup kv.1 kv.2 acc)) = _
      rw [ih (addGroup kv.1 kv.2 acc), lookup_addGroup]
      cases hk : (k == kv.1) with
      | true =>
          have hky : k = kv.1 := eq_of_beq hk
          have hk' : (kv.1 == k) = true := by rw [← hky]; simp
          have hmatch : (match List.lookup k acc with
              | none => some [kv.2]
              | some vs => some (vs ++ [kv.2])) = optAppend (List.lookup k acc) [kv.2] := by
            cases List.lookup k acc <;> rfl
          simp only [if_true, List.filter_cons, hk', List.map_cons]
          rw [hmatch, optAppend_snoc]
      | false =>
          have hk' : (kv.1 == k) = false := by
            cases hx : (kv.1 == k) with
            | true =>
                have hxx := eq_of_beq hx
                rw [hxx] at hk
                simp at hk
            | false => rfl
          simp [List.filter_cons, hk']

theorem lookup_eq_none_of_not_mem {β : Type} {l : List (String × β)} {k : String}
    (h : k ∉ l.map Prod.fst) : List.lookup k l = none := by
  induction l with
  | nil => rfl
  | cons p rest ih =>
      simp only [List.map_cons, List.mem_cons] at h
      push_neg at h
      have hb : (k == p.1) = false := beq_eq_false_iff_ne.mpr h.1
      obtain ⟨pk, pv⟩ := p
      simp only [List.lookup_cons]
      rw [hb]
      exact ih h.2

theorem lookup_of_mem_nodup {β : Type} {l : List (String × β)} {k : String} {v : β}
    (hm : (k, v) ∈ l) (hnd : (l.map Prod.fst).Nodup) : List.lookup k l = some v := by
  induction l with
  | nil => cases hm
  | cons p rest ih =>
      simp only [List.map_cons, List.nodup_cons] at hnd
      cases hm with
      | head =>
          simp [List.lookup_cons]
      | tail _ hm2 =>
          have hkp : (k == p.1) = false := by
            apply beq_eq_false_iff_ne.mpr
            intro hkk
            exact hnd.1 (List.mem_map.mpr ⟨(k, v), hm2, hkk⟩)
          obtain ⟨pk, pv⟩ := p
          simp only [List.lookup_cons]
          rw [hkp]
          exact ih hm2 hnd.2

theorem keys_addGroup {β : Type} (k : String) (v : β) (acc : List (String × List β)) :
    (addGroup k v acc).map Prod.fst =
      if acc.any (fun p => p.1 == k) then acc.map Prod.fst else acc.map Prod.fst ++ [k] := by
  induction acc with
  | nil => simp [addGroup]
  | cons p rest ih =>
      obtain ⟨pk, pv⟩ := p
      cases hpk : (pk == k) with
      | true => simp [addGroup, hpk, eq_of_beq hpk]
      | false =>
          simp only [addGroup, hpk, List.map_cons, List.any_cons, Bool.false_or, ih]
          cases hany : rest.any (fun p => p.1 == k) <;> simp [ih, hany]

theorem any_keys_iff {β : Type} (acc : List (String × β)) (k : String) :
    acc.any (fun p => p.1 == k) = true ↔ k ∈ acc.map Prod.fst := by
  simp only [List.any_eq_true, List.mem_map]
  constructor
  · rintro ⟨p, hp, hq⟩
    exact ⟨p, hp, eq_of_beq hq⟩
  · rintro ⟨p, hp, hq⟩
    exact ⟨p, hp, by simp [hq]⟩

theorem nodup_keys_addGroup {β : Type} (k : String) (v : β) (acc : List (String × List β))
    (hnd : (acc.map Prod.fst).Nodup) : ((addGroup k v acc).map Prod.fst).Nodup := by
  rw [keys_addGroup]
  cases hany : acc.any (fun p => p.1 == k) with
  | true => exact hnd
  | false =>
      have hkm : k ∉ acc.map Prod.fst := by
        intro hmem
        rw [← any_keys_iff acc k] at hmem
        rw [hany] at hmem
        cases hmem
      rw [if_neg Bool.false_ne_true]
      have hperm : (acc.map Prod.fst ++ [k]).Perm (k :: acc.map Prod.fst) :=
        List.perm_append_singleton k (acc.map Prod.fst)
      exact hperm.symm.nodup (List.nodup_cons.mpr ⟨hkm, hnd⟩)

theorem nodup_keys_groupPairs {β : Type} (items : List (String × β)) :
    ∀ acc, ((acc : List (String × List β)).map Prod.fst).Nodup →
      ((groupPairs items acc).map Prod.fst).Nodup := by
  induction items with
  | nil => intro acc h; exact h
  | cons kv rest ih =>
      intro acc h
      exact ih (addGroup kv.1 kv.2 acc) (nodup_keys_addGroup kv.1 kv.2 acc h)

theorem lookup_dictSet {β : Type} (k k' : String) (v : β) (l : List (String × β)) :
    List.lookup k (dictSet l k' v) = if k == k' then some v else List.lookup k l := by
  induction l with
  | nil =>
      cases hkk : (k == k') with
      | true =>
          have := eq_of_beq hkk
          subst this
          simp [dictSet, List.lookup_cons]
      | false => simp [dictSet, List.lookup_cons, hkk]
  | cons p rest ih =>
      obtain ⟨pk, pv⟩ := p
      cases hpk : (pk == k') with
      | true =>
          have := eq_of_beq hpk
          subst this
          cases hkk : (k == pk) with
          | true =>
              have := eq_of_beq hkk
              subst this
              simp [dictSet, List.lookup_cons]
          | false => simp [dictSet, List.lookup_cons, hkk]
      | false =>
          cases hkk : (k == k') with
          | true =>
              have := eq_of_beq hkk
              subst this
              have hkp : (k == pk) = false := by
                cases hx : (k == pk) with
                | true =>
                    have := eq_of_beq hx
                    subst this
                    simp at hpk
                | false => rfl
              simp [dictSet, hpk, List.lookup_cons, hkp, ih]
          | false => simp [dictSet, hpk, List.lookup_cons, hkk, ih]

theorem lookup_dictMerge {β : Type} (k : String) (b : List (String × β)) :
    ∀ p, (b.map Prod.fst).Nodup →
      List.lookup k (dictMerge p b) =
        match List.lookup k b with
        | some v => some v
        | none => List.lookup k p := by
  induction b with
  | nil => intro p _; rfl
  | cons kv bs ih =>
      intro p hnd
      obtain ⟨bk, bv⟩ := kv
      simp only [List.map_cons, List.nodup_cons] at hnd
      show List.lookup k (dictMerge (dictSet p bk bv) bs) = _
      rw [ih (dictSet p bk bv) hnd.2]
      cases hkb : (k == bk) with
      | true =>
          have := eq_of_beq hkb
          subst this
          have hnone : List.lookup k bs = none :=
            lookup_eq_none_of_not_mem hnd.1
          simp [hnone, List.lookup_cons, lookup_dictSet]
      | false =>
          simp only [List.lookup_cons, hkb]
          cases List.lookup k bs with
          | none => simp [lookup_dictSet, hkb]
          | some v => rfl

theorem keys_dictSet {β : Type} (k : String) (v : β) (l : List (String × β)) :
    (dictSet l k v).map Prod.fst =
      if l.any (fun p => p.1 == k) then l.map Prod.fst else l.map Prod.fst ++ [k] := by
  induction l with
  | nil => simp [dictSet]
  | cons p rest ih =>
      obtain ⟨pk, pv⟩ := p
      cases hpk : (pk == k) with
      | true => simp [dictSet, hpk, eq_of_beq hpk]
      | false =>
          simp only [dictSet, hpk, List.map_cons, List.any_cons, Bool.false_or, ih]
          cases hany : rest.any (fun p => p.1 == k) <;> simp [ih, hany]

theorem nodup_keys_dictSet {β : Type} (k : String) (v : β) (l : List (String × β))
    (hnd : (l.map Prod.fst).Nodup) : ((dictSet l k v).map Prod.fst).Nodup := by
  rw [keys_dictSet]
  cases hany : l.any (fun p => p.1 == k) with
  | true => exact hnd
  | false =>
      have hkm : k ∉ l.map Prod.fst := by
        intro hmem
        rw [← any_keys_iff l k] at hmem
        rw [hany] at hmem
        cases hmem
      rw [if_neg Bool.false_ne_true]
      have hperm : (l.map Prod.fst ++ [k]).Perm (k :: l.map Prod.fst) :=
        List.perm_append_singleton k (l.map Prod.fst)
      exact hperm.symm.nodup (List.nodup_cons.mpr ⟨hkm, hnd⟩)

theorem nodup_keys_dictMerge {β : Type} (b : List (String × β)) :
    ∀ p, ((p : List (String × β)).map Prod.fst).Nodup →
      ((dictMerge p b).map Prod.fst).Nodup := by
  induction b with
  | nil => intro p h; exact h
  | cons kv bs ih =>
      intro p h
      exact ih (dictSet p kv.1 kv.2) (nodup_keys_dictSet kv.1 kv.2 p h)

/-- The optional transition entry one pending group yields. -/
def transOf (a : String) (bookd : List (String × List Sighting)) (p : String × List Sighting) :
    Option TransitionEntry :=
  match List.lookup p.1 bookd with
  | none => none
  | some blist =>
      if (minByTs p.2).timestamp ≤ (minByTs blist).timestamp then
        some ⟨a, p.1, (minByTs p.2).timestamp, (minByTs blist).timestamp, p.2.length, blist.length⟩
      else none

/-- The optional duplicate entry one merged group yields. -/
def dupOf (a : String) (kv : String × List Sighting) : Option DupEntry :=
  if kv.2.length > 1 then
    some ⟨a, kv.1, kv.2.length, kv.2.map (fun s => s.timestamp)⟩
  else none

theorem accountTransitions_eq (a : String) (pend bookd : List (String × List Sighting)) :
    accountTransitions a pend bookd = pend.filterMap (transOf a bookd) := by
  suffices h : ∀ acc, pend.foldl
      (fun acc p =>
        match List.lookup p.1 bookd with
        | none => acc
        | some blist =>
            if (minByTs p.2).timestamp ≤ (minByTs blist).timestamp then
              acc ++ [⟨a, p.1, (minByTs p.2).timestamp, (minByTs blist).timestamp,
                       p.2.length, blist.length⟩]
            else acc) acc = acc ++ pend.filterMap (transOf a bookd) by
    simpa [accountTransitions] using h []
  induction pend with
  | nil => intro acc; simp
  | cons p ps ih =>
      intro acc
      rw [List.foldl_cons, List.filterMap_cons]
      cases hl : List.lookup p.1 bookd with
      | none => simp only [transOf, hl]; exact ih acc
      | some blist =>
          by_cases hc : (minByTs p.2).timestamp ≤ (minByTs blist).timestamp
          · simp only [transOf, hl, if_pos hc, ih]
            simp
          · simp only [transOf, hl, if_neg hc]
            exact ih acc

theorem accountDuplicates_eq (a : String) (pend bookd : List (String × List Sighting)) :
    accountDuplicates a pend bookd = (dictMerge pend bookd).filterMap (dupOf a) := by
  suffices h : ∀ (l : List (String × List Sighting)) acc, l.foldl
      (fun acc kv =>
        if kv.2.length > 1 then
          acc ++ [⟨a, kv.1, kv.2.length, kv.2.map (fun s => s.timestamp)⟩]
        else acc) acc = acc ++ l.filterMap (dupOf a) by
    simpa [accountDuplicates] using h (dictMerge pend bookd) []
  intro l
  induction l with
  | nil => intro acc; simp
  | cons kv ks ih =>
      intro acc
      rw [List.foldl_cons, List.filterMap_cons]
      by_cases hc : kv.2.length > 1
      · simp only [dupOf, if_pos hc, ih]
        simp
      · simp only [dupOf, if_neg hc]
        exact ih acc

/-- One account group's transitions, as the analyzer computes them. -/
def groupTransitions (g : String × List Envelope) : List TransitionEntry :=
  accountTransitions g.1 (sightingsOf (sortEnvs g.2) (fun e => e.pending))
    (sightingsOf (sortEnvs g.2) (fun e => e.booked))

/-- One account group's duplicates, as the analyzer computes them. -/
def groupDuplicates (g : String × List Envelope) : List DupEntry :=
  accountDuplicates g.1 (sightingsOf (sortEnvs g.2) (fun e => e.pending))
    (sightingsOf (sortEnvs g.2) (fun e => e.booked))

theorem analyzeRelationships_eq (envs : List Envelope) :
    analyzeRelationships envs =
      ((groupByAccount envs).flatMap groupTransitions,
       (groupByAccount envs).flatMap groupDuplicates) := by
  suffices h : ∀ (gs : List (String × List Envelope)) (acc : List TransitionEntry × List DupEntry),
      gs.foldl
        (fun acc g =>
          let sorted := sortEnvs g.2
          let pend := sightingsOf sorted (fun e => e.pending)
          let bookd := sightingsOf sorted (fun e => e.booked)
          (acc.1 ++ accountTransitions g.1 pend bookd, acc.2 ++ accountDuplicates g.1 pend bookd))
        acc =
      (acc.1 ++ gs.flatMap groupTransitions, acc.2 ++ gs.flatMap groupDuplicates) by
    simpa [analyzeRelationships] using h (groupByAccount envs) ([], [])
  intro gs
  induction gs with
  | nil => intro acc; simp
  | cons g gr ih =>
      intro acc
      rw [List.foldl_cons, List.flatMap_cons, List.flatMap_cons, ih]
      simp [groupTransitions, groupDuplicates, List.append_assoc]

theorem countP_flatMap {γ δ : Type} (q : δ → Bool) (f : γ → List δ) (gs : List γ) :
    List.countP q (gs.flatMap f) = (gs.map (fun g => List.countP q (f g))).sum := by
  induction gs with
  | nil => simp
  | cons g gr ih => simp [List.flatMap_cons, List.countP_append, ih]

/-- All of one state's sightings of a list of envelopes, as key-tagged
pairs in scan order. -/
def sightPairs (envs : List Envelope) (proj : Envelope → List TxRecord) :
    List (String × Sighting) :=
  envs.flatMap (fun e => (proj e).map (fun tx => (txKey tx, Sighting.mk tx e.createdAt)))

theorem groupByAccount_eq (envs : List Envelope) :
    groupByAccount envs = groupPairs (envs.map (fun e => (e.accountId, e))) [] := by
  unfold groupByAccount groupPairs
  rw [List.foldl_map]

theorem sightingsOf_eq (envs : List Envelope) (proj : Envelope → List TxRecord) :
    sightingsOf envs proj = groupPairs (sightPairs envs proj) [] := by
  suffices h : ∀ acc, envs.foldl
      (fun acc e => (proj e).foldl
        (fun acc2 tx => addGroup (txKey tx) ⟨tx, e.createdAt⟩ acc2) acc) acc =
      groupPairs (sightPairs envs proj) acc by
    exact h []
  induction envs with
  | nil => intro acc; rfl
  | cons e es ih =>
      intro acc
      rw [List.foldl_cons]
      have hinner : (proj e).foldl
          (fun acc2 tx => addGroup (txKey tx) ⟨tx, e.createdAt⟩ acc2) acc =
          groupPairs ((proj e).map (fun tx => (txKey tx, Sighting.mk tx e.createdAt))) acc := by
        unfold groupPairs
        rw [List.foldl_map]
      rw [hinner, ih]
      show groupPairs (sightPairs es proj) _ = groupPairs (sightPairs (e :: es) proj) acc
      unfold groupPairs sightPairs
      rw [List.flatMap_cons, List.foldl_append]

theorem optAppend_none_nil {β : Type} : optAppend (none : Option (List β)) [] = none := rfl

theorem optAppend_none_cons {β : Type} (x : β) (xs : List β) :
    optAppend none (x :: xs) = some (x :: xs) := rfl

/-- The capture timestamps of one state's sightings of key `k` in account
`a`, one per sighting, in corpus order — the claim-level description. -/
def stateSightings (envs : List Envelope) (proj : Envelope → List TxRecord) (a k : String) :
    List String :=
  (envs.filter (fun e => e.accountId == a)).flatMap
    (fun e => ((proj e).filter (fun tx => txKey tx == k)).map (fun _ => e.createdAt))

theorem sightPairs_proj (envsA : List Envelope) (proj : Envelope → List TxRecord) (k : String) :
    ((sightPairs envsA proj).filter (fun p => p.1 == k)).map (fun p => p.2.timestamp) =
      envsA.flatMap (fun e => ((proj e).filter (fun tx => txKey tx == k)).map
        (fun _ => e.createdAt)) := by
  induction envsA with
  | nil => rfl
  | cons e es ih =>
      have hsp : sightPairs (e :: es) proj =
          ((proj e).map (fun tx => (txKey tx, Sighting.mk tx e.createdAt))) ++ sightPairs es proj := by
        unfold sightPairs
        rw [List.flatMap_cons]
      have h1 : ((((proj e).map (fun tx => (txKey tx, Sighting.mk tx e.createdAt))).filter
          (fun p => p.1 == k)).map (fun p => p.2.timestamp)) =
          ((proj e).filter (fun tx => txKey tx == k)).map (fun _ => e.createdAt) := by
        rw [List.filter_map, List.map_map]
        rfl
      rw [hsp, List.flatMap_cons, List.filter_append, List.map_append, h1, ih]

/-- `min` of a non-empty list of strings, empty default. -/
def minString : List String → String
  | [] => ""
  | x :: xs => xs.foldl min x

theorem foldl_min_spec (xs : List String) :
    ∀ x, (xs.foldl min x ∈ x :: xs) ∧ (∀ y ∈ x :: xs, xs.foldl min x ≤ y) := by
  induction xs with
  | nil =>
      intro x
      constructor
      · simp
      · intro y hy
        simp at hy
        simp [hy]
  | cons z zs ih =>
      intro x
      rw [List.foldl_cons]
      obtain ⟨hmem, hle⟩ := ih (min x z)
      constructor
      · rcases List.mem_cons.mp hmem with h | h
        · rcases min_choice x z with hc | hc
          · rw [h, hc]
            exact List.mem_cons_self _ _
          · rw [h, hc]
            exact List.mem_cons.mpr (Or.inr (List.mem_cons_self _ _))
        · exact List.mem_cons.mpr (Or.inr (List.mem_cons.mpr (Or.inr h)))
      · intro y hy
        rcases List.mem_cons.mp hy with rfl | hy2
        · exact le_trans (hle _ (List.mem_cons_self _ _)) (min_le_left y z)
        · rcases List.mem_cons.mp hy2 with rfl | hy3
          · exact le_trans (hle _ (List.mem_cons_self _ _)) (min_le_right x y)
          · exact hle y (List.mem_cons.mpr (Or.inr hy3))

theorem minString_mem {l : List String} (h : l ≠ []) : minString l ∈ l := by
  cases l with
  | nil => exact absurd rfl h
  | cons x xs => exact (foldl_min_spec xs x).1

theorem minString_le {l : List String} (y : String) (hy : y ∈ l) : minString l ≤ y := by
  cases l with
  | nil => cases hy
  | cons x xs => exact (foldl_min_spec xs x).2 y hy

theorem minString_perm {l1 l2 : List String} (hp : l1.Perm l2) (h : l1 ≠ []) :
    minString l1 = minString l2 := by
  have h2 : l2 ≠ [] := by
    intro hc
    subst hc
    exact h hp.eq_nil
  exact le_antisymm
    (minString_le _ (hp.mem_iff.mpr (minString_mem h2)))
    (minString_le _ (hp.mem_iff.mp (minString_mem h)))

theorem minByTs_foldl (zs : List Sighting) :
    ∀ s, (zs.foldl (fun best x => if x.timestamp < best.timestamp then x else best) s).timestamp =
      zs.foldl (fun b x => min b x.timestamp) s.timestamp := by
  induction zs with
  | nil => intro s; rfl
  | cons z zs ih =>
      intro s
      rw [List.foldl_cons, List.foldl_cons]
      have hstep : (if z.timestamp < s.timestamp then z else s).timestamp =
          min s.timestamp z.timestamp := by
        by_cases hc : z.timestamp < s.timestamp
        · rw [if_pos hc, min_eq_right (le_of_lt hc)]
        · rw [if_neg hc, min_eq_left (le_of_not_lt hc)]
      rw [ih, hstep]

theorem minByTs_timestamp (sl : List Sighting) (h : sl ≠ []) :
    (minByTs sl).timestamp = minString (sl.map (fun s => s.timestamp)) := by
  cases sl with
  | nil => exact absurd rfl h
  | cons s rest =>
      show (rest.foldl (fun best x => if x.timestamp < best.timestamp then x else best) s).timestamp
        = (rest.map (fun s => s.timestamp)).foldl min s.timestamp
      rw [List.foldl_map]
      exact minByTs_foldl rest s

theorem transOf_some {a : String} {bookd : List (String × List Sighting)}
    {p : String × List Sighting} {e : TransitionEntry} (h : transOf a bookd p = some e) :
    e.account_id = a ∧ e.transaction_key = p.1 ∧
    ∃ blist, List.lookup p.1 bookd = some blist ∧
      (minByTs p.2).timestamp ≤ (minByTs blist).timestamp ∧
      e = ⟨a, p.1, (minByTs p.2).timestamp, (minByTs blist).timestamp,
           p.2.length, blist.length⟩ := by
  unfold transOf at h
  cases hl : List.lookup p.1 bookd with
  | none => rw [hl] at h; cases h
  | some blist =>
      rw [hl] at h
      have h2 : (if (minByTs p.2).timestamp ≤ (minByTs blist).timestamp then
          some (⟨a, p.1, (minByTs p.2).timestamp, (minByTs blist).timestamp,
            p.2.length, blist.length⟩ : TransitionEntry) else none) = some e := h
      by_cases hc : (minByTs p.2).timestamp ≤ (minByTs blist).timestamp
      · rw [if_pos hc, Option.some.injEq] at h2
        subst h2
        exact ⟨rfl, rfl, blist, rfl, hc, rfl⟩
      · rw [if_neg hc] at h2; cases h2

theorem dupOf_some {a : String} {kv : String × List Sighting} {e : DupEntry}
    (h : dupOf a kv = some e) :
    e.account_id = a ∧ e.transaction_key = kv.1 ∧ kv.2.length > 1 ∧
    e = ⟨a, kv.1, kv.2.length, kv.2.map (fun s => s.timestamp)⟩ := by
  unfold dupOf at h
  by_cases hc : kv.2.length > 1
  · rw [if_pos hc, Option.some.injEq] at h
    subst h
    exact ⟨rfl, rfl, hc, rfl⟩
  · rw [if_neg hc] at h; cases h

theorem countP_trans_zero (a k : String) (bookd : List (String × List Sighting))
    (pend : List (String × List Sighting)) (hk : k ∉ pend.map Prod.fst) :
    List.countP (fun e => e.transaction_key == k) (pend.filterMap (transOf a bookd)) = 0 := by
  rw [List.countP_eq_zero]
  intro e he
  rw [List.mem_filterMap] at he
  obtain ⟨p, hp, hsome⟩ := he
  have hkey := (transOf_some hsome).2.1
  simp only [beq_iff_eq, hkey]
  intro hcon
  exact hk (List.mem_map.mpr ⟨p, hp, hcon⟩)

theorem countP_dup_zero (a k : String) (merged : List (String × List Sighting))
    (hk : k ∉ merged.map Prod.fst) :
    List.countP (fun e => e.transaction_key == k) (merged.filterMap (dupOf a)) = 0 := by
  rw [List.countP_eq_zero]
  intro e he
  rw [List.mem_filterMap] at he
  obtain ⟨p, hp, hsome⟩ := he
  have hkey := (dupOf_some hsome).2.1
  simp only [beq_iff_eq, hkey]
  intro hcon
  exact hk (List.mem_map.mpr ⟨p, hp, hcon⟩)

theorem countP_trans_of_lookup (a k : String) (bookd : List (String × List Sighting)) :
    ∀ (pend : List (String × List Sighting)), (pend.map Prod.fst).Nodup →
      List.countP (fun e => e.transaction_key == k) (pend.filterMap (transOf a bookd)) =
        match List.lookup k pend, List.lookup k bookd with
        | some plist, some blist =>
            if (minByTs plist).timestamp ≤ (minByTs blist).timestamp then 1 else 0
        | _, _ => 0 := by
  intro pend
  induction pend with
  | nil =>
      intro _
      cases List.lookup k bookd <;> rfl
  | cons p ps ih =>
      intro hnd
      simp only [List.map_cons, List.nodup_cons] at hnd
      rw [List.filterMap_cons]
      cases hbk : (k == p.1) with
      | true =>
          have hkp : k = p.1 := eq_of_beq hbk
          have hl : List.lookup k (p :: ps) = some p.2 := by
            obtain ⟨p1, p2⟩ := p
            simp only [List.lookup_cons, hbk]
          have hz : List.countP (fun e => e.transaction_key == k)
              (ps.filterMap (transOf a bookd)) = 0 := by
            apply countP_trans_zero
            rw [hkp]
            exact hnd.1
          cases hf : transOf a bookd p with
          | none =>
              rw [hz, hl]
              unfold transOf at hf
              cases hbl : List.lookup p.1 bookd with
              | none => rw [← hkp] at hbl; rw [hbl]
              | some blist =>
                  rw [hbl] at hf
                  have hf2 : (if (minByTs p.2).timestamp ≤ (minByTs blist).timestamp then
                      some (⟨a, p.1, (minByTs p.2).timestamp, (minByTs blist).timestamp,
                        p.2.length, blist.length⟩ : TransitionEntry) else none) = none := hf
                  by_cases hc : (minByTs p.2).timestamp ≤ (minByTs blist).timestamp
                  · rw [if_pos hc] at hf2; cases hf2
                  · rw [← hkp] at hbl
                    rw [hbl]
                    show (0 : Nat) =
                      if (minByTs p.2).timestamp ≤ (minByTs blist).timestamp then 1 else 0
                    rw [if_neg hc]
          | some e =>
              obtain ⟨-, hkey, blist, hbl, hc, hee⟩ := transOf_some hf
              rw [List.countP_cons, hz, hl]
              rw [← hkp] at hbl
              rw [hbl]
              subst hee
              simp [hkp, hc]
      | false =>
          have hkp : k ≠ p.1 := by
            intro hcon
            rw [hcon] at hbk
            simp at hbk
          have hl : List.lookup k (p :: ps) = List.lookup k ps := by
            obtain ⟨p1, p2⟩ := p
            simp only [List.lookup_cons, hbk]
          cases hf : transOf a bookd p with
          | none => rw [hl]; exact ih hnd.2
          | some e =>
              have hkey := (transOf_some hf).2.1
              rw [List.countP_cons, hl]
              have : (e.transaction_key == k) = false := by
                apply beq_eq_false_iff_ne.mpr
                rw [hkey]
                exact fun hcc => hkp hcc.symm
              rw [this]
              simp [ih hnd.2]

theorem countP_dup_of_lookup (a k : String) :
    ∀ (merged : List (String × List Sighting)), (merged.map Prod.fst).Nodup →
      List.countP (fun e => e.transaction_key == k) (merged.filterMap (dupOf a)) =
        match List.lookup k merged with
        | some l => if l.length > 1 then 1 else 0
        | none => 0 := by
  intro merged
  induction merged with
  | nil => intro _; rfl
  | cons p ps ih =>
      intro hnd
      simp only [List.map_cons, List.nodup_cons] at hnd
      rw [List.filterMap_cons]
      cases hbk : (k == p.1) with
      | true =>
          have hkp : k = p.1 := eq_of_beq hbk
          have hl : List.lookup k (p :: ps) = some p.2 := by
            obtain ⟨p1, p2⟩ := p
            simp only [List.lookup_cons, hbk]
          have hz : List.countP (fun e => e.transaction_key == k)
              (ps.filterMap (dupOf a)) = 0 := by
            apply countP_dup_zero
            rw [hkp]
            exact hnd.1
          cases hf : dupOf a p with
          | none =>
              rw [hz, hl]
              unfold dupOf at hf
              by_cases hc : p.2.length > 1
              · rw [if_pos hc] at hf; cases hf
              · show (0 : Nat) = if p.2.length > 1 then 1 else 0
                rw [if_neg hc]
          | some e =>
              obtain ⟨-, hkey, hc, hee⟩ := dupOf_some hf
              rw [List.countP_cons, hz, hl]
              subst hee
              simp [hkp, hc]
      | false =>
          have hkp : k ≠ p.1 := by
            intro hcon
            rw [hcon] at hbk
            simp at hbk
          have hl : List.lookup k (p :: ps) = List.lookup k ps := by
            obtain ⟨p1, p2⟩ := p
            simp only [List.lookup_cons, hbk]
          cases hf : dupOf a p with
          | none => rw [hl]; exact ih hnd.2
          | some e =>
              have hkey := (dupOf_some hf).2.1
              rw [List.countP_cons, hl]
              have : (e.transaction_key == k) = false := by
                apply beq_eq_false_iff_ne.mpr
                rw [hkey]
                exact fun hcc => hkp hcc.symm
              rw [this]
              simp [ih hnd.2]

theorem countP_flatMap_zero {γ δ : Type} (q : δ → Bool) (f : γ → List δ) (gs : List γ)
    (h : ∀ g ∈ gs, List.countP q (f g) = 0) :
    List.countP q (gs.flatMap f) = 0 := by
  induction gs with
  | nil => rfl
  | cons g gr ih =>
      rw [List.flatMap_cons, List.countP_append, h g (by simp), ih (fun g2 hg2 => h g2 (by simp [hg2]))]

theorem countP_flatMap_unique {γ δ : Type} (q : δ → Bool) (f : String × γ → List δ) (a : String) :
    ∀ (gs : List (String × γ)), (gs.map Prod.fst).Nodup →
      (∀ g ∈ gs, g.1 ≠ a → List.countP q (f g) = 0) →
      List.countP q (gs.flatMap f) =
        match List.lookup a gs with
        | some v => List.countP q (f (a, v))
        | none => 0 := by
  intro gs
  induction gs with
  | nil => intro _ _; rfl
  | cons g gr ih =>
      intro hnd hother
      simp only [List.map_cons, List.nodup_cons] at hnd
      rw [List.flatMap_cons, List.countP_append]
      cases hba : (a == g.1) with
      | true =>
          have hag : a = g.1 := eq_of_beq hba
          have hl : List.lookup a (g :: gr) = some g.2 := by
            obtain ⟨g1, g2⟩ := g
            simp only [List.lookup_cons, hba]
          rw [hl]
          have hz : List.countP q (gr.flatMap f) = 0 := by
            apply countP_flatMap_zero
            intro g2 hg2
            apply hother g2 (by simp [hg2])
            intro hcon
            rw [← hag] at hnd
            exact hnd.1 (hcon ▸ List.mem_map.mpr ⟨g2, hg2, rfl⟩)
          rw [hz]
          have hpair : (a, g.2) = g := by
            rw [hag]
          show List.countP q (f g) + 0 = List.countP q (f (a, g.2))
          rw [hpair]
          simp
      | false =>
          have hag : g.1 ≠ a := by
            intro hcon
            rw [hcon] at hba
            simp at hba
          have hl : List.lookup a (g :: gr) = List.lookup a gr := by
            obtain ⟨g1, g2⟩ := g
            simp only [List.lookup_cons, hba]
          rw [hl, hother g (by simp) hag, ih hnd.2 (fun g2 hg2 => hother g2 (by simp [hg2]))]
          simp

theorem lookup_groupByAccount (envs : List Envelope) (a : String) :
    List.lookup a (groupByAccount envs) =
      if envs.filter (fun e => e.accountId == a) = [] then none
      else some (envs.filter (fun e => e.accountId == a)) := by
  rw [groupByAccount_eq, lookup_groupPairs]
  have hval : ((envs.map (fun e => (e.accountId, e))).filter (fun p => p.1 == a)).map Prod.snd =
      envs.filter (fun e => e.accountId == a) := by
    rw [List.filter_map, List.map_map]
    have : (Prod.snd ∘ fun e : Envelope => (e.accountId, e)) = id := rfl
    rw [this, List.map_id]
    rfl
  rw [hval]
  show optAppend none _ = _
  cases envs.filter (fun e => e.accountId == a) with
  | nil => rfl
  | cons x xs => simp [optAppend_none_cons]

theorem nodup_groupByAccount (envs : List Envelope) :
    ((groupByAccount envs).map Prod.fst).Nodup := by
  rw [groupByAccount_eq]
  exact nodup_keys_groupPairs _ [] (by simp)

theorem nodup_sightingsOf (envs : List Envelope) (proj : Envelope → List TxRecord) :
    ((sightingsOf envs proj).map Prod.fst).Nodup := by
  rw [sightingsOf_eq]
  exact nodup_keys_groupPairs _ [] (by simp)

/-- The grouped sighting list for key `k`, tied to its claim-level timestamp
list: the lookup yields `some L` exactly when there are sightings, and `L`'s
timestamps are a permutation of the claim-level occurrence list. -/
theorem lookup_sightings (envs : List Envelope) (a k : String)
    (proj : Envelope → List TxRecord) :
    ∃ L : List Sighting,
      List.lookup k (sightingsOf (sortEnvs (envs.filter (fun e => e.accountId == a))) proj) =
        (if L = [] then none else some L) ∧
      (L.map (fun s => s.timestamp)).Perm (stateSightings envs proj a k) := by
  set envsA := envs.filter (fun e => e.accountId == a) with hA
  refine ⟨((sightPairs (sortEnvs envsA) proj).filter (fun p => p.1 == k)).map Prod.snd, ?_, ?_⟩
  · rw [sightingsOf_eq, lookup_groupPairs]
    show optAppend none _ = _
    cases ((sightPairs (sortEnvs envsA) proj).filter (fun p => p.1 == k)).map Prod.snd with
    | nil => rfl
    | cons x xs => simp [optAppend_none_cons]
  · have hmap : (((sightPairs (sortEnvs envsA) proj).filter (fun p => p.1 == k)).map
        Prod.snd).map (fun s => s.timestamp) =
        ((sightPairs (sortEnvs envsA) proj).filter (fun p => p.1 == k)).map
          (fun p => p.2.timestamp) := by
      rw [List.map_map]
      rfl
    rw [hmap, sightPairs_proj]
    show ((sortEnvs envsA).flatMap _).Perm (stateSightings envs proj a k)
    unfold stateSightings
    exact (List.mergeSort_perm envsA _).flatMap_right _

theorem countP_groupTransitions (envs : List Envelope) (a k : String) :
    List.countP (fun e => e.transaction_key == k)
      (groupTransitions (a, envs.filter (fun e => e.accountId == a))) =
      if stateSightings envs (fun e => e.pending) a k ≠ [] ∧
         stateSightings envs (fun e => e.booked) a k ≠ [] ∧
         minString (stateSightings envs (fun e => e.pending) a k) ≤
           minString (stateSightings envs (fun e => e.booked) a k)
      then 1 else 0 := by
  obtain ⟨LP, hLP, hPp⟩ := lookup_sightings envs a k (fun e => e.pending)
  obtain ⟨LB, hLB, hPb⟩ := lookup_sightings envs a k (fun e => e.booked)
  unfold groupTransitions
  rw [accountTransitions_eq, countP_trans_of_lookup a k _ _ (nodup_sightingsOf _ _)]
  show (match List.lookup k (sightingsOf (sortEnvs (envs.filter (fun e => e.accountId == a)))
        (fun e => e.pending)),
      List.lookup k (sightingsOf (sortEnvs (envs.filter (fun e => e.accountId == a)))
        (fun e => e.booked)) with
    | some plist, some blist =>
        if (minByTs plist).timestamp ≤ (minByTs blist).timestamp then 1 else 0
    | _, _ => 0) = _
  rw [hLP, hLB]
  by_cases hp : LP = []
  · rw [if_pos hp]
    have hPnil : stateSightings envs (fun e => e.pending) a k = [] := by
      have := hPp
      rw [hp] at this
      exact this.symm.eq_nil
    have hnc : ¬(stateSightings envs (fun e => e.pending) a k ≠ [] ∧
        stateSightings envs (fun e => e.booked) a k ≠ [] ∧
        minString (stateSightings envs (fun e => e.pending) a k) ≤
          minString (stateSightings envs (fun e => e.booked) a k)) :=
      fun hcon => hcon.1 hPnil
    rw [if_neg hnc]
  · rw [if_neg hp]
    by_cases hb : LB = []
    · rw [if_pos hb]
      have hBnil : stateSightings envs (fun e => e.booked) a k = [] := by
        have := hPb
        rw [hb] at this
        exact this.symm.eq_nil
      have hnc : ¬(stateSightings envs (fun e => e.pending) a k ≠ [] ∧
          stateSightings envs (fun e => e.booked) a k ≠ [] ∧
          minString (stateSightings envs (fun e => e.pending) a k) ≤
            minString (stateSightings envs (fun e => e.booked) a k)) :=
        fun hcon => hcon.2.1 hBnil
      rw [if_neg hnc]
    · rw [if_neg hb]
      have hPne : stateSightings envs (fun e => e.pending) a k ≠ [] := by
        intro hc
        rw [hc] at hPp
        exact hp (List.map_eq_nil_iff.mp hPp.eq_nil)
      have hBne : stateSightings envs (fun e => e.booked) a k ≠ [] := by
        intro hc
        rw [hc] at hPb
        exact hb (List.map_eq_nil_iff.mp hPb.eq_nil)
      have hmapP : LP.map (fun s => s.timestamp) ≠ [] := by simp [hp]
      have hmp : (minByTs LP).timestamp =
          minString (stateSightings envs (fun e => e.pending) a k) := by
        rw [minByTs_timestamp LP hp]
        exact minString_perm hPp hmapP
      have hmapB : LB.map (fun s => s.timestamp) ≠ [] := by simp [hb]
      have hmb : (minByTs LB).timestamp =
          minString (stateSightings envs (fun e => e.booked) a k) := by
        rw [minByTs_timestamp LB hb]
        exact minString_perm hPb hmapB
      show (if (minByTs LP).timestamp ≤ (minByTs LB).timestamp then 1 else 0) = _
      rw [hmp, hmb]
      by_cases hmin : minString (stateSightings envs (fun e => e.pending) a k) ≤
          minString (stateSightings envs (fun e => e.booked) a k)
      · rw [if_pos hmin, if_pos ⟨hPne, hBne, hmin⟩]
      · rw [if_neg hmin, if_neg (by intro hcon; exact hmin hcon.2.2)]

theorem countP_groupDuplicates (envs : List Envelope) (a k : String) :
    List.countP (fun e => e.transaction_key == k)
      (groupDuplicates (a, envs.filter (fun e => e.accountId == a))) =
      if (stateSightings envs (fun e => e.booked) a k ≠ [] ∧
            1 < (stateSightings envs (fun e => e.booked) a k).length) ∨
         (stateSightings envs (fun e => e.booked) a k = [] ∧
            1 < (stateSightings envs (fun e => e.pending) a k).length)
      then 1 else 0 := by
  obtain ⟨LP, hLP, hPp⟩ := lookup_sightings envs a k (fun e => e.pending)
  obtain ⟨LB, hLB, hPb⟩ := lookup_sightings envs a k (fun e => e.booked)
  have hlenP : LP.length = (stateSightings envs (fun e => e.pending) a k).length := by
    rw [← hPp.length_eq, List.length_map]
  have hlenB : LB.length = (stateSightings envs (fun e => e.booked) a k).length := by
    rw [← hPb.length_eq, List.length_map]
  unfold groupDuplicates
  rw [accountDuplicates_eq, countP_dup_of_lookup a k _
    (nodup_keys_dictMerge _ _ (nodup_sightingsOf _ _)),
    lookup_dictMerge k _ _ (nodup_sightingsOf _ _), hLB, hLP]
  by_cases hb : LB = []
  · rw [if_pos hb]
    have hBnil : stateSightings envs (fun e => e.booked) a k = [] := by
      have := hPb
      rw [hb] at this
      exact this.symm.eq_nil
    by_cases hp : LP = []
    · rw [if_pos hp]
      have hPnil : stateSightings envs (fun e => e.pending) a k = [] := by
        have := hPp
        rw [hp] at this
        exact this.symm.eq_nil
      rw [if_neg (by simp [hPnil, hBnil])]
    · rw [if_neg hp]
      show (if 1 < LP.length then 1 else 0) = _
      rw [hlenP]
      by_cases hlen : 1 < (stateSightings envs (fun e => e.pending) a k).length
      · rw [if_pos hlen, if_pos (Or.inr ⟨hBnil, hlen⟩)]
      · rw [if_neg hlen, if_neg ?_]
        rintro (⟨hcon, -⟩ | ⟨-, hcon⟩)
        · exact hcon hBnil
        · exact hlen hcon
  · rw [if_neg hb]
    have hBne : stateSightings envs (fun e => e.booked) a k ≠ [] := by
      intro hc
      rw [hc] at hPb
      exact hb (List.map_eq_nil_iff.mp hPb.eq_nil)
    show (if 1 < LB.length then 1 else 0) = _
    rw [hlenB]
    by_cases hlen : 1 < (stateSightings envs (fun e => e.booked) a k).length
    · rw [if_pos hlen, if_pos (Or.inl ⟨hBne, hlen⟩)]
    · rw [if_neg hlen, if_neg ?_]
      rintro (⟨-, hcon⟩ | ⟨hcon, -⟩)
      · exact hlen hcon
      · exact hBne hcon

theorem groupTransitions_account {g : String × List Envelope} {e : TransitionEntry}
    (he : e ∈ groupTransitions g) : e.account_id = g.1 := by
  unfold groupTransitions at he
  rw [accountTransitions_eq, List.mem_filterMap] at he
  obtain ⟨p, hp, hsome⟩ := he
  exact (transOf_some hsome).1

theorem groupDuplicates_account {g : String × List Envelope} {e : DupEntry}
    (he : e ∈ groupDuplicates g) : e.account_id = g.1 := by
  unfold groupDuplicates at he
  rw [accountDuplicates_eq, List.mem_filterMap] at he
  obtain ⟨p, hp, hsome⟩ := he
  exact (dupOf_some hsome).1

/-- Is every record of the corpus a data-model record (`transactionAmount`,
when present, a mapping)? On such corpora the total `txKey` agrees with the
Python key derivation everywhere; elsewhere the Python analyzer raises. -/
def wfCorpus (envs : List Envelope) : Bool :=
  envs.all (fun e => (e.pending ++ e.booked).all amountIsMapping)

/-- C2: the relationship report contains exactly one pending-to-booked entry
for an account and identity key exactly when the key has pending and booked
sightings for that account and the earliest pending capture timestamp is at
most the earliest booked one; the entry carries both earliest timestamps and
both sighting counts. In particular a key whose earliest booked sighting is
strictly earlier than its earliest pending one gets no entry. -/
theorem claim_C2 (envs : List Envelope) (a k : String) (hwf : wfCorpus envs = true) :
    (List.countP (fun e => e.account_id == a && e.transaction_key == k)
        (analyzeRelationships envs).1 =
      if stateSightings envs (fun e => e.pending) a k ≠ [] ∧
         stateSightings envs (fun e => e.booked) a k ≠ [] ∧
         minString (stateSightings envs (fun e => e.pending) a k) ≤
           minString (stateSightings envs (fun e => e.booked) a k)
      then 1 else 0) ∧
    (∀ e ∈ (analyzeRelationships envs).1, e.account_id = a → e.transaction_key = k →
      e.pending_first_seen = minString (stateSightings envs (fun e => e.pending) a k) ∧
      e.booked_first_seen = minString (stateSightings envs (fun e => e.booked) a k) ∧
      e.pending_count = (stateSightings envs (fun e => e.pending) a k).length ∧
      e.booked_count = (stateSightings envs (fun e => e.booked) a k).length) := by
  constructor
  · rw [analyzeRelationships_eq]
    show List.countP _ ((groupByAccount envs).flatMap groupTransitions) = _
    have hother : ∀ g ∈ groupByAccount envs, g.1 ≠ a →
        List.countP (fun e => e.account_id == a && e.transaction_key == k)
          (groupTransitions g) = 0 := by
      intro g _ hga
      rw [List.countP_eq_zero]
      intro e he
      have hacc := groupTransitions_account he
      simp [hacc, hga]
    rw [countP_flatMap_unique _ groupTransitions a (groupByAccount envs)
      (nodup_groupByAccount envs) hother, lookup_groupByAccount]
    by_cases hfil : envs.filter (fun e => e.accountId == a) = []
    · rw [if_pos hfil]
      have hPnil : stateSightings envs (fun e => e.pending) a k = [] := by
        unfold stateSightings
        rw [hfil]
        rfl
      rw [if_neg (fun hcon => hcon.1 hPnil)]
    · rw [if_neg hfil]
      show List.countP _ (groupTransitions (a, envs.filter (fun e => e.accountId == a))) = _
      rw [← countP_groupTransitions envs a k]
      apply List.countP_congr
      intro e he
      have hacc := groupTransitions_account he
      simp [hacc]
  · intro e he ha hk2
    rw [analyzeRelationships_eq] at he
    have he2 : e ∈ (groupByAccount envs).flatMap groupTransitions := he
    rw [List.mem_flatMap] at he2
    obtain ⟨g, hg, heg⟩ := he2
    unfold groupTransitions at heg
    rw [accountTransitions_eq, List.mem_filterMap] at heg
    obtain ⟨p, hp, hsome⟩ := heg
    obtain ⟨hacc, hkey, blist, hbl, hc, hee⟩ := transOf_some hsome
    have hga : g.1 = a := by rw [← hacc, ha]
    have hmemg : (a, g.2) ∈ groupByAccount envs := by
      rw [← hga]
      exact hg
    have hlg : List.lookup a (groupByAccount envs) = some g.2 :=
      lookup_of_mem_nodup hmemg (nodup_groupByAccount envs)
    rw [lookup_groupByAccount] at hlg
    by_cases hfil : envs.filter (fun e => e.accountId == a) = []
    · rw [if_pos hfil] at hlg
      cases hlg
    · rw [if_neg hfil, Option.some.injEq] at hlg
      have hpk : p.1 = k := by rw [← hkey, hk2]
      obtain ⟨LP, hLP, hPp⟩ := lookup_sightings envs a k (fun e => e.pending)
      obtain ⟨LB, hLB, hPb⟩ := lookup_sightings envs a k (fun e => e.booked)
      have hlp : List.lookup k (sightingsOf (sortEnvs (envs.filter
          (fun e => e.accountId == a))) (fun e => e.pending)) = some p.2 := by
        apply lookup_of_mem_nodup _ (nodup_sightingsOf _ _)
        rw [← hpk]
        show p ∈ _
        rw [hlg]
        exact hp
      have hlb : List.lookup k (sightingsOf (sortEnvs (envs.filter
          (fun e => e.accountId == a))) (fun e => e.booked)) = some blist := by
        rw [← hpk, hlg]
        exact hbl
      rw [hLP] at hlp
      rw [hLB] at hlb
      by_cases hpe : LP = []
      · rw [if_pos hpe] at hlp
        cases hlp
      · rw [if_neg hpe, Option.some.injEq] at hlp
        by_cases hbe : LB = []
        · rw [if_pos hbe] at hlb
          cases hlb
        · rw [if_neg hbe, Option.some.injEq] at hlb
          have hmp : (minByTs p.2).timestamp =
              minString (stateSightings envs (fun e => e.pending) a k) := by
            rw [← hlp, minByTs_timestamp LP hpe]
            exact minString_perm hPp (by simp [hpe])
          have hmb : (minByTs blist).timestamp =
              minString (stateSightings envs (fun e => e.booked) a k) := by
            rw [← hlb, minByTs_timestamp LB hbe]
            exact minString_perm hPb (by simp [hbe])
          have hlenp : p.2.length = (stateSightings envs (fun e => e.pending) a k).length := by
            rw [← hlp, ← hPp.length_eq, List.length_map]
          have hlenb : blist.length = (stateSightings envs (fun e => e.booked) a k).length := by
            rw [← hlb, ← hPb.length_eq, List.length_map]
          rw [hee]
          exact ⟨hmp, hmb, hlenp, hlenb⟩

/-- The duplicates half of the report, counted for one account and key. -/
theorem dupReport_countP (envs : List Envelope) (a k : String) :
    List.countP (fun e => e.account_id == a && e.transaction_key == k)
        (analyzeRelationships envs).2 =
      if (stateSightings envs (fun e => e.booked) a k ≠ [] ∧
            1 < (stateSightings envs (fun e => e.booked) a k).length) ∨
         (stateSightings envs (fun e => e.booked) a k = [] ∧
            1 < (stateSightings envs (fun e => e.pending) a k).length)
      then 1 else 0 := by
  rw [analyzeRelationships_eq]
  show List.countP _ ((groupByAccount envs).flatMap groupDuplicates) = _
  have hother : ∀ g ∈ groupByAccount envs, g.1 ≠ a →
      List.countP (fun e => e.account_id == a && e.transaction_key == k)
        (groupDuplicates g) = 0 := by
    intro g _ hga
    rw [List.countP_eq_zero]
    intro e he
    have hacc := groupDuplicates_account he
    simp [hacc, hga]
  rw [countP_flatMap_unique _ groupDuplicates a (groupByAccount envs)
    (nodup_groupByAccount envs) hother, lookup_groupByAccount]
  by_cases hfil : envs.filter (fun e => e.accountId == a) = []
  · rw [if_pos hfil]
    have hPnil : stateSightings envs (fun e => e.pending) a k = [] := by
      unfold stateSightings
      rw [hfil]
      rfl
    have hBnil : stateSightings envs (fun e => e.booked) a k = [] := by
      unfold stateSightings
      rw [hfil]
      rfl
    rw [if_neg (by simp [hPnil, hBnil])]
  · rw [if_neg hfil]
    show List.countP _ (groupDuplicates (a, envs.filter (fun e => e.accountId == a))) = _
    rw [← countP_groupDuplicates envs a k]
    apply List.countP_congr
    intro e he
    have hacc := groupDuplicates_account he
    simp [hacc]

/-- C3 (amended): a duplicates entry for an account and key is emitted exactly
when the booked side shadows a list of more than one sighting — booked
sightings exist and number more than one — or no booked sighting exists and
the pending sightings number more than one; the entry's occurrence count and
timestamp list come from the shadowing side only, because the merge
`[..]**pending, **booked[..]` lets the booked group displace the pending
group of the same key. -/
theorem claim_C3_amended (envs : List Envelope) (a k : String) (hwf : wfCorpus envs = true) :
    (List.countP (fun e => e.account_id == a && e.transaction_key == k)
        (analyzeRelationships envs).2 =
      if (stateSightings envs (fun e => e.booked) a k ≠ [] ∧
            1 < (stateSightings envs (fun e => e.booked) a k).length) ∨
         (stateSightings envs (fun e => e.booked) a k = [] ∧
            1 < (stateSightings envs (fun e => e.pending) a k).length)
      then 1 else 0) ∧
    (∀ e ∈ (analyzeRelationships envs).2, e.account_id = a → e.transaction_key = k →
      (stateSightings envs (fun e => e.booked) a k ≠ [] →
        e.occurrence_count = (stateSightings envs (fun e => e.booked) a k).length ∧
        e.timestamps.Perm (stateSightings envs (fun e => e.booked) a k)) ∧
      (stateSightings envs (fun e => e.booked) a k = [] →
        e.occurrence_count = (stateSightings envs (fun e => e.pending) a k).length ∧
        e.timestamps.Perm (stateSightings envs (fun e => e.pending) a k))) := by
  refine ⟨dupReport_countP envs a k, ?_⟩
  intro e he ha hk2
  rw [analyzeRelationships_eq] at he
  have he2 : e ∈ (groupByAccount envs).flatMap groupDuplicates := he
  rw [List.mem_flatMap] at he2
  obtain ⟨g, hg, heg⟩ := he2
  unfold groupDuplicates at heg
  rw [accountDuplicates_eq, List.mem_filterMap] at heg
  obtain ⟨kv, hkv, hsome⟩ := heg
  obtain ⟨hacc, hkey, hlen, hee⟩ := dupOf_some hsome
  have hga : g.1 = a := by rw [← hacc, ha]
  have hmemg : (a, g.2) ∈ groupByAccount envs := by
    rw [← hga]
    exact hg
  have hlg : List.lookup a (groupByAccount envs) = some g.2 :=
    lookup_of_mem_nodup hmemg (nodup_groupByAccount envs)
  rw [lookup_groupByAccount] at hlg
  by_cases hfil : envs.filter (fun e => e.accountId == a) = []
  · rw [if_pos hfil] at hlg
    cases hlg
  · rw [if_neg hfil, Option.some.injEq] at hlg
    have hkk : kv.1 = k := by rw [← hkey, hk2]
    obtain ⟨LP, hLP, hPp⟩ := lookup_sightings envs a k (fun e => e.pending)
    obtain ⟨LB, hLB, hPb⟩ := lookup_sightings envs a k (fun e => e.booked)
    have hlkv : List.lookup k (dictMerge
        (sightingsOf (sortEnvs (envs.filter (fun e => e.accountId == a)))
          (fun e => e.pending))
        (sightingsOf (sortEnvs (envs.filter (fun e => e.accountId == a)))
          (fun e => e.booked))) = some kv.2 := by
      apply lookup_of_mem_nodup _ (nodup_keys_dictMerge _ _ (nodup_sightingsOf _ _))
      rw [← hkk]
      show kv ∈ _
      rw [hlg]
      exact hkv
    rw [lookup_dictMerge k _ _ (nodup_sightingsOf _ _), hLB, hLP] at hlkv
    by_cases hbe : LB = []
    · rw [if_pos hbe] at hlkv
      have hBnil : stateSightings envs (fun e => e.booked) a k = [] := by
        have := hPb
        rw [hbe] at this
        exact this.symm.eq_nil
      by_cases hpe : LP = []
      · rw [if_pos hpe] at hlkv
        cases hlkv
      · rw [if_neg hpe, Option.some.injEq] at hlkv
        constructor
        · intro hcon
          exact absurd hBnil hcon
        · intro _
          have hkvLP : kv.2 = LP := hlkv.symm
          rw [hee]
          constructor
          · show kv.2.length = _
            rw [hkvLP, ← hPp.length_eq, List.length_map]
          · show (kv.2.map (fun s => s.timestamp)).Perm _
            rw [hkvLP]
            exact hPp
    · rw [if_neg hbe, Option.some.injEq] at hlkv
      have hBne : stateSightings envs (fun e => e.booked) a k ≠ [] := by
        intro hcc
        rw [hcc] at hPb
        exact hbe (List.map_eq_nil_iff.mp hPb.eq_nil)
      constructor
      · intro _
        have hkvLB : kv.2 = LB := hlkv.symm
        rw [hee]
        constructor
        · show kv.2.length = _
          rw [hkvLB, ← hPb.length_eq, List.length_map]
        · show (kv.2.map (fun s => s.timestamp)).Perm _
          rw [hkvLB]
          exact hPb
      · intro hcon
        exact absurd hcon hBne

/-- A transaction carrying only a transactionId, keyed "id:K". -/
def txK : TxRecord := [("transactionId", JVal.str "K")]

/-- The spec's section-8 example corpus: account A1 sees the key pending at
t10 and booked at t11. -/
def c2wit : List Envelope :=
  [⟨"A1", "t10", none, none, [txK], []⟩, ⟨"A1", "t11", none, none, [], [txK]⟩]

theorem claim_C2_witness :
    List.countP (fun e => e.account_id == "A1" && e.transaction_key == "id:K")
      (analyzeRelationships c2wit).1 = 1 := by
  have h := (claim_C2 c2wit "A1" "id:K" (by decide)).1
  have e1 : stateSightings c2wit (fun e => e.pending) "A1" "id:K" = ["t10"] := by decide
  have e2 : stateSightings c2wit (fun e => e.booked) "A1" "id:K" = ["t11"] := by decide
  rw [h, e1, e2, if_pos]
  refine ⟨by decide, by decide, ?_⟩
  show ("t10" : String) ≤ "t11"
  rw [String.le_iff_toList_le]
  decide

/-- Account A2 sees the key booked three times. -/
def c3wit : List Envelope :=
  [⟨"A2", "09:00", none, none, [], [txK]⟩, ⟨"A2", "09:05", none, none, [], [txK]⟩,
   ⟨"A2", "09:06", none, none, [], [txK]⟩]

theorem claim_C3_amended_witness :
    List.countP (fun e => e.account_id == "A2" && e.transaction_key == "id:K")
      (analyzeRelationships c3wit).2 = 1 := by
  have h := (claim_C3_amended c3wit "A2" "id:K" (by decide)).1
  rw [h]
  decide

/-- Account A is sighted pending twice (t1, t2) and booked once (t3): the
claim promises a duplicates entry counting the two pending sightings, but the
booked group of the same key shadows the pending group in the merge, so the
report contains no duplicates entry for this account and key at all. -/
def c3cex : List Envelope :=
  [⟨"A", "t1", none, none, [txK], []⟩, ⟨"A", "t2", none, none, [txK], []⟩,
   ⟨"A", "t3", none, none, [], [txK]⟩]

theorem claim_C3_counterexample :
    (stateSightings c3cex (fun e => e.pending) "A" "id:K").length = 2 ∧
    List.countP (fun e => e.account_id == "A" && e.transaction_key == "id:K")
      (analyzeRelationships c3cex).2 = 0 := by
  refine ⟨by decide, ?_⟩
  rw [dupReport_countP c3cex "A" "id:K"]
  have e1 : stateSightings c3cex (fun e => e.pending) "A" "id:K" = ["t1", "t2"] := by decide
  have e2 : stateSightings c3cex (fun e => e.booked) "A" "id:K" = ["t3"] := by decide
  rw [e1, e2, if_neg]
  decide
